import Mathlib

set_option maxHeartbeats 1000000

/-!
Verification of the expiry-heap state cache (`cache_with_expiry_heap/state_cache.go`).

The Go program keeps three shared structures inside `MyStateCache`:
  * `items`       : `map[string]*cachedItem` — the item store;
  * `expirations` : `expirationQueue` (a slice of `*itemExpiry`) managed with
                    Go's `container/heap` as a min-heap on `unixExpiryTime`;
  * `expiryMap`   : `map[string]*itemExpiry` — key → expiry-record index used by
                    `Set` to update an existing record in place and `heap.Fix` it.

The heap slice and `expiryMap` alias the *same* `itemExpiry` records.  A record is
created at most once per key (`Set` pushes only when the key is absent from
`expiryMap`), so a record is faithfully addressed by its key: we model the record
store as an association list `recs : List (String × ItemExpiry)` (this is exactly
`expiryMap`) and the heap slice as `arr : List String`, a list of pointers
represented by the pointed-to record's key.  In-place mutation of a record
(`index` by `Swap`/`Push`/`Pop`, `unixExpiryTime` by `Set`) is an update of `recs`
at that key, visible to both aliases.

Go maps are modelled as association lists with unique keys (`alookup`/`aset`/`adel`);
the `items` map is wrapped in `Option` because `Shutdown` sets it to `nil`
(a nil map reads as empty but panics on write).  Unix times, durations in whole
seconds, and slice indices are `Int`, matching Go's `int64`/`int` (no overflow is
reachable at the modelled inputs).  `time.Now()` is an explicit `now` argument.
-/

structure MyState where
  Id : String
  Values : List Int
deriving DecidableEq, Repr

structure cachedItem where
  stateObject : MyState
  cachedAt : Int
  expiresAt : Int
deriving DecidableEq, Repr

structure ItemExpiry where
  itemKey : String
  unixExpiryTime : Int
  index : Int
deriving DecidableEq, Repr

/-- Go map read: first (unique) binding of the key. -/
def alookup {β : Type} : List (String × β) → String → Option β
  | [], _ => none
  | (k', v) :: rest, k => if k = k' then some v else alookup rest k

/-- Go map write: replace the binding of the key, or append a fresh one. -/
def aset {β : Type} : List (String × β) → String → β → List (String × β)
  | [], k, v => [(k, v)]
  | (k', v') :: rest, k, v =>
      if k = k' then (k, v) :: rest else (k', v') :: aset rest k v

/-- Go map `delete`: drop every binding of the key (keys are unique anyway). -/
def adel {β : Type} : List (String × β) → String → List (String × β)
  | [], _ => []
  | (k', v') :: rest, k =>
      if k = k' then adel rest k else (k', v') :: adel rest k

/-- In-place write of a record's `index` field through either alias
(`(*q)[i].index = i` in `Swap`/`Push`, `item.index = -1` in `Pop`). -/
def setIdx (recs : List (String × ItemExpiry)) (k : String) (i : Int) :
    List (String × ItemExpiry) :=
  recs.map fun p => if p.1 = k then (p.1, { p.2 with index := i }) else p

/-- The expiration queue together with the record store it points into:
`arr` is the `expirationQueue` slice (each element the key of the record it
points to), `recs` is `expiryMap`, which holds every live record. -/
structure ExpHeap where
  arr : List String
  recs : List (String × ItemExpiry)
deriving DecidableEq, Repr

/-- Dereference the pointer stored for `k`.  In the Go program every pointer in
the queue refers to a record held in `expiryMap`, so the default is never read
on a reachable state. -/
def ExpHeap.recOf (h : ExpHeap) (k : String) : ItemExpiry :=
  (alookup h.recs k).getD ⟨k, 0, 0⟩

/-- `(*q)[i].unixExpiryTime` (total; out-of-range reads never occur on the
index values the Go code produces). -/
def ExpHeap.timeAt (h : ExpHeap) (i : Int) : Int :=
  (h.recOf (h.arr.getD i.toNat "")).unixExpiryTime

/-- `expirationQueue.Swap`: swap slots `i`,`j` and refresh both records'
`index` fields. -/
def ExpHeap.swapQ (h : ExpHeap) (i j : Int) : ExpHeap :=
  { arr := (h.arr.set i.toNat (h.arr.getD j.toNat "")).set j.toNat
             (h.arr.getD i.toNat "")
    recs := setIdx (setIdx h.recs (h.arr.getD j.toNat "") i)
              (h.arr.getD i.toNat "") j }

/-- `expirationQueue.Push`: the pushed record gets `index = len`, then is
appended. -/
def ExpHeap.pushQ (h : ExpHeap) (k : String) : ExpHeap :=
  { arr := h.arr ++ [k]
    recs := setIdx h.recs k (h.arr.length : Int) }

/-- `expirationQueue.Pop`: remove the last slot; the removed record's `index`
is set to `-1` ("help prevent accidental re-use").  Returns the removed key. -/
def ExpHeap.popQ (h : ExpHeap) : ExpHeap × String :=
  ({ arr := h.arr.take (h.arr.length - 1)
     recs := setIdx h.recs (h.arr.getD (h.arr.length - 1) "") (-1) },
   h.arr.getD (h.arr.length - 1) "")

/-- `container/heap.up`.  Indices are `Int` exactly as in Go; `(j-1)/2` is Go's
truncated division, `Int.tdiv`. -/
def heapUpLoop (h : ExpHeap) (j : Int) : ExpHeap :=
  if hg : (j - 1).tdiv 2 = j ∨ ¬ (h.timeAt j < h.timeAt ((j - 1).tdiv 2)) then h
  else heapUpLoop (h.swapQ ((j - 1).tdiv 2) j) ((j - 1).tdiv 2)
termination_by j.toNat
decreasing_by
  push_neg at hg
  obtain ⟨hij, hlt⟩ := hg
  have hj1 : 1 ≤ j := by
    by_contra hc
    push_neg at hc
    rcases Decidable.em (j = 0) with h0 | h0
    · apply hij
      subst h0
      decide
    · have hi : (j - 1).tdiv 2 ≤ 0 := by
        have h3 : (0:Int) ≤ -(j - 1) := by omega
        have h4 := Int.tdiv_nonneg h3 (by norm_num : (0:Int) ≤ 2)
        rw [Int.neg_tdiv] at h4
        omega
      have e1 : ((j - 1).tdiv 2).toNat = 0 := by omega
      have e2 : j.toNat = 0 := by omega
      simp only [ExpHeap.timeAt] at hlt
      rw [e1, e2] at hlt
      exact lt_irrefl _ hlt
  have h2 : (j - 1).tdiv 2 = (j - 1) / 2 := Int.tdiv_eq_ediv (by omega) (by norm_num)
  rw [h2]
  omega

/-- The child `container/heap.down` picks to compare with: the left child
`2i+1`, or the right child `2i+2` when it exists below `n` and is strictly
smaller (Go's `j`, with `j1 = 2*i+1` and `j2 = j1+1`). -/
def minChild (h : ExpHeap) (n i : Int) : Int :=
  if 2 * i + 2 < n ∧ h.timeAt (2 * i + 2) < h.timeAt (2 * i + 1) then 2 * i + 2
  else 2 * i + 1

/-- `container/heap.down`, returning the state and the final index `i`
(Go returns `i > i0`; we return `i` itself and compare at the call sites). -/
def heapDownLoop (h : ExpHeap) (n : Int) (i : Int) : ExpHeap × Int :=
  if hb : 2 * i + 1 ≥ n ∨ 2 * i + 1 < 0 then (h, i)
  else if ¬ (h.timeAt (minChild h n i) < h.timeAt i) then (h, i)
  else heapDownLoop (h.swapQ i (minChild h n i)) n (minChild h n i)
termination_by (n - i).toNat
decreasing_by
  push_neg at hb
  rw [minChild]
  split <;> omega

/-- `heap.Push`: the interface `Push` (append with index), then sift up from
the last slot. -/
def heapPush (h : ExpHeap) (k : String) : ExpHeap :=
  heapUpLoop (h.pushQ k) (((h.pushQ k).arr.length : Int) - 1)

/-- `heap.Pop`: swap root with last, sift down over the first `n-1` slots,
then the interface `Pop` removes the last slot.  Returns the removed key. -/
def heapPop (h : ExpHeap) : ExpHeap × String :=
  (heapDownLoop (h.swapQ 0 ((h.arr.length : Int) - 1))
      ((h.arr.length : Int) - 1) 0).1.popQ

/-- `heap.Fix i`: sift down; if that did not move the element, sift up. -/
def heapFix (h : ExpHeap) (i : Int) : ExpHeap :=
  if (heapDownLoop h (h.arr.length : Int) i).2 > i
  then (heapDownLoop h (h.arr.length : Int) i).1
  else heapUpLoop (heapDownLoop h (h.arr.length : Int) i).1 i

/-- `MyStateCache`.  `items = none` models the `nil` map that `Shutdown`
installs; `exp.arr` is `expirations`, `exp.recs` is `expiryMap`; `cancelled`
is the state of the cache's cancellable context. -/
structure MyStateCache where
  items : Option (List (String × cachedItem))
  exp : ExpHeap
  cancelled : Bool
deriving DecidableEq, Repr

/-- `NewMyStateCache`: fresh empty maps and queue (`heap.Init` on an empty
queue does nothing), live context. -/
def newMyStateCache : MyStateCache :=
  { items := some [], exp := { arr := [], recs := [] }, cancelled := false }

/-- Result of `Set`: the returned error, or the updated cache, or a Go panic
(`Set` writes to the nil `items` map after `Shutdown`). -/
inductive SetResult where
  | err (msg : String) (c : MyStateCache)
  | panicked
  | ok (c : MyStateCache)
deriving DecidableEq, Repr

/-- The expiry-queue update block of `Set` (`state_cache.go` lines 87–97):
if `key` already has a record in `expiryMap`, overwrite its `unixExpiryTime`
in place and `heap.Fix` it at its stored `index`; otherwise create a record
(`index` is Go's zero value `0`), store it in `expiryMap` and `heap.Push` it. -/
def setHeap (e : ExpHeap) (k : String) (expiry : Int) : ExpHeap :=
  match alookup e.recs k with
  | some oldExpiry =>
      heapFix { e with recs := aset e.recs k { oldExpiry with unixExpiryTime := expiry } }
        oldExpiry.index
  | none =>
      heapPush { e with recs := aset e.recs k ⟨k, expiry, 0⟩ } k

/-- `MyStateCache.Set`.  `state = none` is Go's `nil` pointer; `lifespanSec` is
`int64(lifespan.Seconds())`; `now` is `time.Now().Unix()`.  Mirrors the source:
nil check first (before any mutation), then the expiry-queue update (`setHeap`),
finally overwrite the item-store entry (a panic if `items` is the nil map). -/
def MyStateCache.Set (cache : MyStateCache) (state : Option MyState)
    (lifespanSec : Int) (now : Int) : SetResult :=
  match state with
  | none => .err "cannot cache state due to nil value" cache
  | some st =>
    let cachedAt := now
    let expiry := cachedAt + lifespanSec
    let exp' := setHeap cache.exp st.Id expiry
    match cache.items with
    | none => .panicked
    | some m =>
        .ok { cache with
                items := some (aset m st.Id ⟨st, cachedAt, expiry⟩)
                exp := exp' }

/-- `item, exists := cache.items[stateId]` — reading a nil map yields absent. -/
def lookupItems (items : Option (List (String × cachedItem))) (k : String) :
    Option cachedItem :=
  match items with
  | none => none
  | some m => alookup m k

/-- `MyStateCache.Get`: absent key → "state item not found"; present but
`expiresAt ≤ now` → "state item was found as expired"; otherwise the value. -/
def MyStateCache.Get (cache : MyStateCache) (stateId : String) (now : Int) :
    Except String MyState :=
  match lookupItems cache.items stateId with
  | none => .error "state item not found"
  | some item =>
      if item.expiresAt ≤ now then .error "state item was found as expired"
      else .ok item.stateObject

/-- `MyStateCache.Shutdown`: `items = nil`, fresh empty queue and `expiryMap`,
cancel the context (idempotent). -/
def MyStateCache.Shutdown (_cache : MyStateCache) : MyStateCache :=
  { items := none, exp := { arr := [], recs := [] }, cancelled := true }

/-- The loop body of `clean`: while the queue is nonempty, peek the root
record; stop once its expiry is after `now`; otherwise `heap.Pop` and delete
`items[earliest.itemKey]`.  `fuel` bounds the iteration count; `clean` passes
the queue length, which suffices because every iteration pops exactly one
element. -/
def cleanLoop : Nat → ExpHeap → Option (List (String × cachedItem)) → Int →
    ExpHeap × Option (List (String × cachedItem))
  | 0, e, items, _ => (e, items)
  | fuel + 1, e, items, now =>
      if e.arr.length = 0 then (e, items)
      else if (e.recOf (e.arr.getD 0 "")).unixExpiryTime > now then (e, items)
      else
        cleanLoop fuel (heapPop e).1
          (items.map (fun m => adel m (e.recOf (e.arr.getD 0 "")).itemKey)) now

/-- `MyStateCache.clean` (the sweep). -/
def MyStateCache.clean (cache : MyStateCache) (now : Int) : MyStateCache :=
  { cache with
      exp := (cleanLoop cache.exp.arr.length cache.exp cache.items now).1
      items := (cleanLoop cache.exp.arr.length cache.exp cache.items now).2 }

/-- The cache produced by `Set("a", lifespan 0s)` at `t = 0` on a fresh cache
(one item, already expired at its creation instant). -/
def cacheA0 : MyStateCache :=
  ⟨some [("a", ⟨⟨"a", []⟩, 0, 0⟩)], ⟨["a"], [("a", ⟨"a", 0, 0⟩)]⟩, false⟩

/-- `cacheA0` after `clean` at time 0: the sweep removed `"a"` from the item
store and the queue, but left its record in `expiryMap` with `index = -1`. -/
def cacheA0swept : MyStateCache :=
  ⟨some [], ⟨[], [("a", ⟨"a", 0, -1⟩)]⟩, false⟩

/-- `cacheA0swept` after re-`Set("a", lifespan 100s)` at `t = 10`: the stale
record takes the Fix path; `heap.Fix` at index `-1` is a silent no-op, so the
key is cached in the item store but has no entry in the expiration queue. -/
def cacheA0reset : MyStateCache :=
  ⟨some [("a", ⟨⟨"a", []⟩, 10, 110⟩)], ⟨[], [("a", ⟨"a", 110, -1⟩)]⟩, false⟩

/-- A fresh cache after `Set("a", v, lifespan 5s)` at `t = 0` (no sweep):
the entry is still stored but is lazily expired for any query time `≥ 5`. -/
def cacheAexpired : MyStateCache :=
  ⟨some [("a", ⟨⟨"a", []⟩, 0, 5⟩)], ⟨["a"], [("a", ⟨"a", 5, 0⟩)]⟩, false⟩

/-- A fresh cache after `Set("a", ⟨"a",[1]⟩, lifespan 10s)` at `t = 0`. -/
def cacheA10 : MyStateCache :=
  ⟨some [("a", ⟨⟨"a", [1]⟩, 0, 10⟩)], ⟨["a"], [("a", ⟨"a", 10, 0⟩)]⟩, false⟩

/-- Every record in the store carries its own key in `itemKey` (true of every
record `Set` ever creates; updates never touch `itemKey`). -/
def keysOK (recs : List (String × ItemExpiry)) : Prop :=
  ∀ k r, alookup recs k = some r → r.itemKey = k

/-- The key and expiry time of the record stored for `k` (its `index` field
masked out); heap reordering only rewrites `index`, so this projection is
invariant under every queue operation. -/
def recsKT (recs : List (String × ItemExpiry)) (k : String) : Option (String × Int) :=
  (alookup recs k).map fun r => (r.itemKey, r.unixExpiryTime)

/-- Structural well-formedness of the queue/record-store pair, maintained by
the Go code: (1) the record pointed to from any slot `p` carries `index = p`;
(2) every record's `index` is either `-1` with its key out of the queue
(a swept record) or its key's true position; (3) records carry their keys. -/
def HeapWF (h : ExpHeap) : Prop :=
  (∀ p : Nat, p < h.arr.length →
      ∃ r, alookup h.recs (h.arr.getD p "") = some r ∧ r.index = (p : Int)) ∧
  (∀ k r, alookup h.recs k = some r →
      (r.index = -1 ∧ k ∉ h.arr) ∨
      (0 ≤ r.index ∧ r.index.toNat < h.arr.length ∧
        h.arr.getD r.index.toNat "" = k)) ∧
  keysOK h.recs

/-- Min-heap order on the first `n` slots: every non-root entry's expiry is
`≥` its parent's expiry. -/
def ExpHeap.heapOrdTo (h : ExpHeap) (n : Int) : Prop :=
  ∀ p : Int, 1 ≤ p → p < n → h.timeAt ((p - 1) / 2) ≤ h.timeAt p

/-- Min-heap order on the whole queue. -/
def ExpHeap.heapOrd (h : ExpHeap) : Prop :=
  h.heapOrdTo (h.arr.length : Int)

/-- The operations the cache performs on the expiration queue: `Push` of a
fresh key's record (`Set`, absent branch), in-place retime plus `Fix`
(`Set`, present branch), and `PopMin` (`clean`). -/
inductive HeapOp where
  | push (k : String) (t : Int)
  | fix (k : String) (t : Int)
  | popMin
deriving DecidableEq, Repr

/-- Apply one queue operation exactly the way the source invokes it:
`push` only for a key with no record yet, `fix` by retiming the existing
record and fixing at its stored index, `popMin` only on a nonempty queue. -/
def applyOp (h : ExpHeap) : HeapOp → ExpHeap
  | .push k t =>
      match alookup h.recs k with
      | some _ => h
      | none => heapPush { h with recs := aset h.recs k ⟨k, t, 0⟩ } k
  | .fix k t =>
      match alookup h.recs k with
      | some r => heapFix { h with recs := aset h.recs k { r with unixExpiryTime := t } } r.index
      | none => h
  | .popMin => if 0 < h.arr.length then (heapPop h).1 else h

/-- The empty expiration queue (`make(expirationQueue, 0)` plus empty
`expiryMap`). -/
def emptyHeap : ExpHeap := ⟨[], []⟩

/-- C9: Shutdown is idempotent — calling it twice leaves the state of the
second call equal to the state after the first, and the first call already
leaves empty structures, a nil item store and a cancelled context (cancelling
an already-cancelled context is a no-op; the model is total, so no panic). -/
theorem C9_shutdown_idempotent (c : MyStateCache) :
    c.Shutdown.Shutdown = c.Shutdown ∧ c.Shutdown.items = none ∧
    c.Shutdown.exp.arr = [] ∧ c.Shutdown.exp.recs = [] ∧
    c.Shutdown.cancelled = true :=
  ⟨rfl, rfl, rfl, rfl, rfl⟩

/-- C10: after Shutdown, `Get` of any key returns the not-found error without
panicking (the nil `items` map is safely readable), while `Set` with any
non-nil value does not complete normally: it panics writing to the nil map. -/
theorem C10_after_shutdown_get_safe_set_panics (c : MyStateCache) (k : String)
    (q : Int) (st : MyState) (lifespanSec t : Int) :
    c.Shutdown.Get k q = .error "state item not found" ∧
    c.Shutdown.Set (some st) lifespanSec t = .panicked :=
  ⟨rfl, rfl⟩

/-- Unfolding of `Set` on a non-nil value when the item store is live. -/
theorem Set_some_eq (c : MyStateCache) (m : List (String × cachedItem))
    (hm : c.items = some m) (st : MyState) (lifespanSec t : Int) :
    c.Set (some st) lifespanSec t =
      .ok { c with
              items := some (aset m st.Id ⟨st, t, t + lifespanSec⟩)
              exp := setHeap c.exp st.Id (t + lifespanSec) } := by
  simp only [MyStateCache.Set, hm]

/-- C7: `Set` returns an error iff the value is the nil sentinel; the error is
returned before any mutation (the cache in the error result is the input
cache, untouched), and every call with a non-nil value on a live cache is
accepted — the lifespan is arbitrary, including zero and negative values. -/
theorem C7_set_error_iff_nil_value (c : MyStateCache) (st : MyState)
    (lifespanSec t : Int) :
    c.Set none lifespanSec t = .err "cannot cache state due to nil value" c ∧
    (c.items ≠ none → ∃ c', c.Set (some st) lifespanSec t = .ok c') := by
  refine ⟨rfl, ?_⟩
  intro h
  cases hm : c.items with
  | none => exact absurd hm h
  | some m => exact ⟨_, Set_some_eq c m hm st lifespanSec t⟩

/-- C7 witness: on a fresh cache, `Set` with nil errors out leaving the cache
unchanged, and `Set` with a value and a negative lifespan succeeds. -/
theorem C7_witness :
    newMyStateCache.Set none 5 0 =
        .err "cannot cache state due to nil value" newMyStateCache ∧
    newMyStateCache.items ≠ none ∧
    ∃ c', newMyStateCache.Set (some ⟨"a", [1]⟩) (-3) 0 = .ok c' :=
  ⟨(C7_set_error_iff_nil_value newMyStateCache ⟨"a", [1]⟩ (-3) 0).1,
   by simp [newMyStateCache],
   (C7_set_error_iff_nil_value newMyStateCache ⟨"a", [1]⟩ (-3) 0).2
     (by simp [newMyStateCache])⟩

/-- C8 counterexample: the claim says a never-cached key and a
stored-but-lazily-expired key give indistinguishable `Get` results; in the
code they are distinguishable — `Get` returns the distinct error messages
"state item not found" and "state item was found as expired".
`cacheAexpired` is reachable: it is exactly `Set("a", lifespan 5)` at `t = 0`
on a fresh cache, queried at `t = 10` with no sweep. -/
theorem C8_counterexample :
    newMyStateCache.Set (some ⟨"a", []⟩) 5 0 = .ok cacheAexpired ∧
    newMyStateCache.Get "a" 10 = .error "state item not found" ∧
    cacheAexpired.Get "a" 10 = .error "state item was found as expired" ∧
    newMyStateCache.Get "a" 10 ≠ cacheAexpired.Get "a" 10 := by
  refine ⟨?_, rfl, rfl, ?_⟩
  · simp +decide [MyStateCache.Set, setHeap, newMyStateCache, alookup, heapPush,
      ExpHeap.pushQ, setIdx, aset, heapUpLoop, ExpHeap.timeAt, ExpHeap.recOf,
      cacheAexpired]
  · intro h
    have h' : (Except.error "state item not found" : Except String MyState) =
        Except.error "state item was found as expired" := h
    exact absurd (Except.error.inj h') (by decide)

/-- C8 amended: both the never-cached case and the stored-but-expired case
expose no value (both collapse to an error result), but the two cases are
distinguishable by their error messages, which differ. -/
theorem C8_amended_absent_but_distinct_messages (c : MyStateCache) (k : String)
    (now : Int) :
    ((lookupItems c.items k = none ∨
        ∃ item, lookupItems c.items k = some item ∧ item.expiresAt ≤ now) →
      ∀ v, c.Get k now ≠ .ok v) ∧
    (lookupItems c.items k = none → c.Get k now = .error "state item not found") ∧
    (∀ item, lookupItems c.items k = some item → item.expiresAt ≤ now →
      c.Get k now = .error "state item was found as expired") ∧
    ("state item not found" : String) ≠ "state item was found as expired" := by
  refine ⟨?_, ?_, ?_, by decide⟩
  · rintro (hnone | ⟨item, hit, hexp⟩) v
    · simp [MyStateCache.Get, hnone]
    · simp [MyStateCache.Get, hit, if_pos hexp]
  · intro hnone
    simp [MyStateCache.Get, hnone]
  · intro item hit hexp
    simp [MyStateCache.Get, hit, if_pos hexp]

/-- C8 witness for the amended statement, at the cache holding an expired
`"a"` entry and at a fresh cache missing the key. -/
theorem C8_witness :
    (∀ v, cacheAexpired.Get "a" 10 ≠ .ok v) ∧
    newMyStateCache.Get "a" 10 = .error "state item not found" ∧
    cacheAexpired.Get "a" 10 = .error "state item was found as expired" :=
  ⟨(C8_amended_absent_but_distinct_messages cacheAexpired "a" 10).1
     (Or.inr ⟨⟨⟨"a", []⟩, 0, 5⟩, by simp [cacheAexpired, lookupItems, alookup],
        by norm_num⟩),
   (C8_amended_absent_but_distinct_messages newMyStateCache "a" 10).2.1
     (by simp [newMyStateCache, lookupItems, alookup]),
   (C8_amended_absent_but_distinct_messages cacheAexpired "a" 10).2.2.1
     ⟨⟨"a", []⟩, 0, 5⟩ (by simp [cacheAexpired, lookupItems, alookup])
     (by norm_num)⟩

/-- C3 is violated by the code: after `Set("a", lifespan 0)` at `t = 0` and a
sweep at time 0, the item store is empty but `expiryMap` still contains the
swept key `"a"` (the sweep deletes from `items` and pops the heap, but never
deletes from `expiryMap`), so the two key sets differ. -/
theorem C3_key_sets_diverge_after_sweep :
    newMyStateCache.Set (some ⟨"a", []⟩) 0 0 = .ok cacheA0 ∧
    cacheA0.clean 0 = cacheA0swept ∧
    (cacheA0swept.items.getD []).map Prod.fst = [] ∧
    cacheA0swept.exp.recs.map Prod.fst = ["a"] ∧
    (cacheA0swept.items.getD []).map Prod.fst ≠
      cacheA0swept.exp.recs.map Prod.fst := by
  refine ⟨?_, ?_, rfl, rfl, by decide⟩ <;>
    simp +decide [MyStateCache.Set, setHeap, MyStateCache.clean, cleanLoop,
      newMyStateCache, alookup, heapPush, ExpHeap.pushQ, setIdx, aset,
      heapUpLoop, heapFix, heapPop, ExpHeap.swapQ, ExpHeap.popQ, heapDownLoop,
      ExpHeap.timeAt, ExpHeap.recOf, adel, cacheA0, cacheA0swept]

/-- C6 is violated by the code: re-`Set` of a key whose entry was removed by a
sweep does succeed without error or panic and stores a fresh item, but the
stale `expiryMap` record (index `-1`) takes the Fix path and `heap.Fix(-1)`
is a silent no-op, so the Expiration Queue is left with *zero* entries for
the key (not exactly one): the entry can never be actively swept again. -/
theorem C6_reset_after_sweep_loses_queue_entry :
    cacheA0.clean 0 = cacheA0swept ∧
    cacheA0swept.Set (some ⟨"a", []⟩) 100 10 = .ok cacheA0reset ∧
    alookup (cacheA0reset.items.getD []) "a" = some ⟨⟨"a", []⟩, 10, 110⟩ ∧
    cacheA0reset.exp.arr = [] ∧
    cacheA0reset.exp.arr.count "a" = 0 := by
  refine ⟨?_, ?_, by decide, rfl, by decide⟩ <;>
    simp +decide [MyStateCache.Set, setHeap, MyStateCache.clean, cleanLoop,
      alookup, heapPush, ExpHeap.pushQ, setIdx, aset, heapUpLoop, heapFix,
      heapPop, ExpHeap.swapQ, ExpHeap.popQ, heapDownLoop, ExpHeap.timeAt,
      ExpHeap.recOf, adel, cacheA0, cacheA0swept, cacheA0reset]

theorem alookup_cons (p : String × β) (rest : List (String × β)) (k : String) :
    alookup (p :: rest) k = if k = p.1 then some p.2 else alookup rest k := rfl

theorem alookup_aset (m : List (String × β)) (k' : String) (v : β) (k : String) :
    alookup (aset m k' v) k = if k = k' then some v else alookup m k := by
  induction m with
  | nil =>
    by_cases hk : k = k' <;> simp [aset, alookup, hk]
  | cons p rest ih =>
    by_cases hp : k' = p.1
    · rw [aset, if_pos hp, alookup_cons, alookup_cons]
      by_cases hk : k = k'
      · rw [if_pos hk]
        simp [hk, hp]
      · rw [if_neg hk]
        have : (k = p.1) = False := by
          simp [hp ▸ hk]
        simp [this, hk]
    · rw [aset, if_neg hp, alookup_cons, alookup_cons, ih]
      by_cases hk : k = p.1
      · have hkk' : ¬ k = k' := fun h => hp (h ▸ hk)
        rw [if_pos hk, if_neg hkk', if_pos hk]
      · simp [hk]

theorem alookup_adel (m : List (String × β)) (k' k : String) :
    alookup (adel m k') k = if k = k' then none else alookup m k := by
  induction m with
  | nil => by_cases hk : k = k' <;> simp [adel, alookup, hk]
  | cons p rest ih =>
    by_cases hp : k' = p.1
    · rw [adel, if_pos hp, ih]
      by_cases hk : k = k'
      · simp [hk]
      · rw [if_neg hk, if_neg hk, alookup_cons,
          if_neg (fun h => hk (h.trans hp.symm))]
    · rw [adel, if_neg hp, alookup_cons, ih, alookup_cons]
      by_cases hk : k = p.1
      · have hkk' : ¬ k = k' := fun h => hp (h ▸ hk)
        rw [if_pos hk, if_neg hkk', if_pos hk]
      · simp [hk]

theorem alookup_setIdx (recs : List (String × ItemExpiry)) (k' : String) (i : Int)
    (k : String) :
    alookup (setIdx recs k' i) k =
      (alookup recs k).map fun r => if k = k' then { r with index := i } else r := by
  induction recs with
  | nil => rfl
  | cons p rest ih =>
    rw [setIdx, List.map_cons]
    by_cases hp : p.1 = k'
    · rw [if_pos hp, alookup_cons, alookup_cons]
      by_cases hk : k = p.1
      · rw [if_pos hk, if_pos hk]
        simp [hk.trans hp]
      · rw [if_neg hk, if_neg hk]
        exact ih
    · rw [if_neg hp, alookup_cons, alookup_cons]
      by_cases hk : k = p.1
      · have hne : ¬ k = k' := fun h => hp (hk.symm.trans h)
        rw [if_pos hk, if_pos hk]
        simp [hne]
      · rw [if_neg hk, if_neg hk]
        exact ih

theorem recsKT_setIdx (recs : List (String × ItemExpiry)) (k' : String) (i : Int) :
    recsKT (setIdx recs k' i) = recsKT recs := by
  funext k
  rw [recsKT, recsKT, alookup_setIdx]
  cases alookup recs k with
  | none => rfl
  | some r =>
    simp only [Option.map_some']
    split <;> rfl

theorem recsKT_swapQ (h : ExpHeap) (i j : Int) :
    recsKT (h.swapQ i j).recs = recsKT h.recs := by
  rw [ExpHeap.swapQ]
  rw [recsKT_setIdx, recsKT_setIdx]

theorem heapUpLoop_recsKT (h : ExpHeap) (j : Int) :
    recsKT (heapUpLoop h j).recs = recsKT h.recs := by
  induction h, j using heapUpLoop.induct with
  | case1 h j hg => rw [heapUpLoop, dif_pos hg]
  | case2 h j hg ih =>
    rw [heapUpLoop, dif_neg hg, ih, recsKT_swapQ]

theorem heapDownLoop_recsKT (h : ExpHeap) (n i : Int) :
    recsKT (heapDownLoop h n i).1.recs = recsKT h.recs := by
  induction h, n, i using heapDownLoop.induct with
  | case1 h n i hg => rw [heapDownLoop, dif_pos hg]
  | case2 h n i hg hcond =>
    rw [heapDownLoop, dif_neg hg, if_pos hcond]
  | case3 h n i hg hcond ih =>
    rw [heapDownLoop, dif_neg hg, if_neg hcond]
    exact ih.trans (recsKT_swapQ h i (minChild h n i))

theorem heapDownLoop_arrLen (h : ExpHeap) (n i : Int) :
    (heapDownLoop h n i).1.arr.length = h.arr.length := by
  induction h, n, i using heapDownLoop.induct with
  | case1 h n i hg => rw [heapDownLoop, dif_pos hg]
  | case2 h n i hg hcond =>
    rw [heapDownLoop, dif_neg hg, if_pos hcond]
  | case3 h n i hg hcond ih =>
    rw [heapDownLoop, dif_neg hg, if_neg hcond]
    exact ih.trans (by simp [ExpHeap.swapQ])

theorem heapUpLoop_arrLen (h : ExpHeap) (j : Int) :
    (heapUpLoop h j).arr.length = h.arr.length := by
  induction h, j using heapUpLoop.induct with
  | case1 h j hg => rw [heapUpLoop, dif_pos hg]
  | case2 h j hg ih =>
    rw [heapUpLoop, dif_neg hg]
    exact ih.trans (by simp [ExpHeap.swapQ])

theorem heapFix_recsKT (h : ExpHeap) (i : Int) :
    recsKT (heapFix h i).recs = recsKT h.recs := by
  rw [heapFix]
  split
  · exact heapDownLoop_recsKT h _ i
  · exact (heapUpLoop_recsKT _ i).trans (heapDownLoop_recsKT h _ i)

theorem heapFix_arrLen (h : ExpHeap) (i : Int) :
    (heapFix h i).arr.length = h.arr.length := by
  rw [heapFix]
  split
  · exact heapDownLoop_arrLen h _ i
  · exact (heapUpLoop_arrLen _ i).trans (heapDownLoop_arrLen h _ i)

theorem heapPush_recsKT (h : ExpHeap) (k : String) :
    recsKT (heapPush h k).recs = recsKT h.recs := by
  rw [heapPush]
  exact (heapUpLoop_recsKT _ _).trans (by rw [ExpHeap.pushQ, recsKT_setIdx])

theorem heapPush_arrLen (h : ExpHeap) (k : String) :
    (heapPush h k).arr.length = h.arr.length + 1 := by
  rw [heapPush]
  refine (heapUpLoop_arrLen _ _).trans ?_
  simp [ExpHeap.pushQ]

theorem heapPop_recsKT (h : ExpHeap) :
    recsKT (heapPop h).1.recs = recsKT h.recs := by
  rw [heapPop, ExpHeap.popQ]
  refine (recsKT_setIdx _ _ _).trans ?_
  exact (heapDownLoop_recsKT _ _ _).trans (recsKT_swapQ h _ _)

theorem heapPop_arrLen (h : ExpHeap) :
    (heapPop h).1.arr.length = h.arr.length - 1 := by
  rw [heapPop, ExpHeap.popQ]
  simp only [List.length_take]
  rw [heapDownLoop_arrLen]
  simp [ExpHeap.swapQ]

theorem keysOK_of_recsKT (recs' recs : List (String × ItemExpiry))
    (h : recsKT recs' = recsKT recs) (hk : keysOK recs) : keysOK recs' := by
  intro k r hr
  have h1 : recsKT recs' k = some (r.itemKey, r.unixExpiryTime) := by
    rw [recsKT, hr]
    rfl
  rw [h] at h1
  rw [recsKT] at h1
  cases halt : alookup recs k with
  | none => rw [halt] at h1; exact absurd h1 (by simp)
  | some r2 =>
    rw [halt] at h1
    simp only [Option.map_some', Option.some.injEq, Prod.mk.injEq] at h1
    rw [← h1.1]
    exact hk k r2 halt

theorem recOf_itemKey (h : ExpHeap) (k : String) (hks : keysOK h.recs) :
    (h.recOf k).itemKey = k := by
  rw [ExpHeap.recOf]
  cases halt : alookup h.recs k with
  | none => rfl
  | some r => exact hks k r halt

theorem recOf_time_of_recsKT (h : ExpHeap) (k kk : String) (T : Int)
    (hr : recsKT h.recs k = some (kk, T)) : (h.recOf k).unixExpiryTime = T := by
  rw [recsKT] at hr
  cases halt : alookup h.recs k with
  | none => rw [halt] at hr; exact absurd hr (by simp)
  | some r =>
    rw [halt] at hr
    simp only [Option.map_some', Option.some.injEq, Prod.mk.injEq] at hr
    rw [ExpHeap.recOf, halt]
    exact hr.2

theorem keysOK_aset_retime (recs : List (String × ItemExpiry)) (k : String)
    (r : ItemExpiry) (T : Int) (hks : keysOK recs) (hk : r.itemKey = k) :
    keysOK (aset recs k { r with unixExpiryTime := T }) := by
  intro k2 r2 h2
  rw [alookup_aset] at h2
  by_cases he : k2 = k
  · rw [if_pos he] at h2
    cases h2
    exact hk.trans he.symm
  · rw [if_neg he] at h2
    exact hks k2 r2 h2

theorem keysOK_aset_fresh (recs : List (String × ItemExpiry)) (k : String) (T : Int)
    (hks : keysOK recs) : keysOK (aset recs k ⟨k, T, 0⟩) := by
  intro k2 r2 h2
  rw [alookup_aset] at h2
  by_cases he : k2 = k
  · rw [if_pos he] at h2
    cases h2
    exact he.symm
  · rw [if_neg he] at h2
    exact hks k2 r2 h2

theorem setHeap_keysOK (e : ExpHeap) (k : String) (T : Int) (hks : keysOK e.recs) :
    keysOK (setHeap e k T).recs := by
  rw [setHeap]
  cases halt : alookup e.recs k with
  | some r =>
    refine keysOK_of_recsKT _ _ (heapFix_recsKT _ _) ?_
    exact keysOK_aset_retime e.recs k r T hks (hks k r halt)
  | none =>
    refine keysOK_of_recsKT _ _ (heapPush_recsKT _ _) ?_
    exact keysOK_aset_fresh e.recs k T hks

theorem setHeap_recsKT_self (e : ExpHeap) (k : String) (T : Int)
    (hks : keysOK e.recs) : recsKT (setHeap e k T).recs k = some (k, T) := by
  rw [setHeap]
  cases halt : alookup e.recs k with
  | some r =>
    rw [congrFun (heapFix_recsKT _ _) k]
    rw [recsKT, alookup_aset, if_pos rfl]
    simp [hks k r halt]
  | none =>
    rw [congrFun (heapPush_recsKT _ _) k]
    rw [recsKT, alookup_aset, if_pos rfl]
    rfl

theorem setHeap_recsKT_other (e : ExpHeap) (k : String) (T : Int) (k' : String)
    (hne : ¬ k' = k) : recsKT (setHeap e k T).recs k' = recsKT e.recs k' := by
  rw [setHeap]
  cases halt : alookup e.recs k with
  | some r =>
    rw [congrFun (heapFix_recsKT _ _) k']
    rw [recsKT, alookup_aset, if_neg hne, recsKT]
  | none =>
    rw [congrFun (heapPush_recsKT _ _) k']
    rw [recsKT, alookup_aset, if_neg hne, recsKT]

theorem cleanLoop_keeps_live (fuel : Nat) (e : ExpHeap)
    (m : List (String × cachedItem)) (ts : Int) (K : String) (T : Int)
    (hks : keysOK e.recs) (hKT : recsKT e.recs K = some (K, T)) (hts : ts < T) :
    keysOK (cleanLoop fuel e (some m) ts).1.recs ∧
    recsKT (cleanLoop fuel e (some m) ts).1.recs K = some (K, T) ∧
    ∃ m', (cleanLoop fuel e (some m) ts).2 = some m' ∧ alookup m' K = alookup m K := by
  induction fuel generalizing e m with
  | zero => exact ⟨hks, hKT, m, rfl, rfl⟩
  | succ fuel ih =>
    rw [cleanLoop]
    by_cases h0 : e.arr.length = 0
    · rw [if_pos h0]
      exact ⟨hks, hKT, m, rfl, rfl⟩
    · rw [if_neg h0]
      by_cases hl : (e.recOf (e.arr.getD 0 "")).unixExpiryTime > ts
      · rw [if_pos hl]
        exact ⟨hks, hKT, m, rfl, rfl⟩
      · rw [if_neg hl]
        have hkk : (e.recOf (e.arr.getD 0 "")).itemKey = e.arr.getD 0 "" :=
          recOf_itemKey e _ hks
        have hne : ¬ e.arr.getD 0 "" = K := by
          intro hK
          rw [hK] at hl
          rw [recOf_time_of_recsKT e K K T hKT] at hl
          omega
        have hks1 : keysOK (heapPop e).1.recs :=
          keysOK_of_recsKT _ _ (heapPop_recsKT e) hks
        have hKT1 : recsKT (heapPop e).1.recs K = some (K, T) := by
          rw [congrFun (heapPop_recsKT e) K]
          exact hKT
        have := ih (heapPop e).1 (adel m (e.recOf (e.arr.getD 0 "")).itemKey)
          hks1 hKT1
        simp only [Option.map_some'] at *
        refine ⟨this.1, this.2.1, ?_⟩
        obtain ⟨m', hm', hlk⟩ := this.2.2
        refine ⟨m', hm', hlk.trans ?_⟩
        rw [alookup_adel, hkk, if_neg (fun h => hne h.symm)]

theorem clean_keeps_live (c : MyStateCache) (m : List (String × cachedItem))
    (ts : Int) (K : String) (T : Int) (it : cachedItem)
    (hm : c.items = some m) (hks : keysOK c.exp.recs)
    (hKT : recsKT c.exp.recs K = some (K, T)) (hts : ts < T)
    (hit : alookup m K = some it) :
    ∃ m', (c.clean ts).items = some m' ∧ alookup m' K = some it ∧
      keysOK (c.clean ts).exp.recs ∧
      recsKT (c.clean ts).exp.recs K = some (K, T) := by
  have h := cleanLoop_keeps_live c.exp.arr.length c.exp m ts K T hks hKT hts
  obtain ⟨h1, h2, m', hm', hlk⟩ := h
  rw [MyStateCache.clean, hm]
  exact ⟨m', hm', hlk.trans hit, h1, h2⟩

theorem cleanLoop_items_mono (fuel : Nat) (e : ExpHeap)
    (items : Option (List (String × cachedItem))) (ts : Int) (k : String) :
    lookupItems (cleanLoop fuel e items ts).2 k = none ∨
    lookupItems (cleanLoop fuel e items ts).2 k = lookupItems items k := by
  induction fuel generalizing e items with
  | zero => exact Or.inr rfl
  | succ fuel ih =>
    rw [cleanLoop]
    by_cases h0 : e.arr.length = 0
    · rw [if_pos h0]
      exact Or.inr rfl
    · rw [if_neg h0]
      by_cases hl : (e.recOf (e.arr.getD 0 "")).unixExpiryTime > ts
      · rw [if_pos hl]
        exact Or.inr rfl
      · rw [if_neg hl]
        rcases ih (heapPop e).1
            (items.map (fun m => adel m (e.recOf (e.arr.getD 0 "")).itemKey)) with
          hcase | hcase
        · exact Or.inl hcase
        · rw [hcase]
          cases items with
          | none => exact Or.inr rfl
          | some m =>
            simp only [Option.map_some', lookupItems]
            rw [alookup_adel]
            split
            · exact Or.inl rfl
            · exact Or.inr rfl

theorem clean_items_mono (c : MyStateCache) (ts : Int) (k : String) :
    lookupItems (c.clean ts).items k = none ∨
    lookupItems (c.clean ts).items k = lookupItems c.items k := by
  rw [MyStateCache.clean]
  exact cleanLoop_items_mono c.exp.arr.length c.exp c.items ts k

theorem Get_none (c : MyStateCache) (k : String) (q : Int)
    (h : lookupItems c.items k = none) :
    c.Get k q = .error "state item not found" := by
  rw [MyStateCache.Get, h]

theorem Get_some_fields (c : MyStateCache) (k : String) (q : Int) (v : MyState)
    (ca ex : Int) (h : lookupItems c.items k = some ⟨v, ca, ex⟩) :
    c.Get k q =
      if ex ≤ q then .error "state item was found as expired" else .ok v := by
  rw [MyStateCache.Get, h]

theorem foldl_clean_keeps_live (tss : List Int) (c : MyStateCache)
    (m : List (String × cachedItem)) (K : String) (T : Int) (it : cachedItem)
    (hm : c.items = some m) (hks : keysOK c.exp.recs)
    (hKT : recsKT c.exp.recs K = some (K, T))
    (hts : ∀ ts ∈ tss, ts < T) (hit : alookup m K = some it) :
    ∃ m', (tss.foldl MyStateCache.clean c).items = some m' ∧
      alookup m' K = some it := by
  induction tss generalizing c m with
  | nil => exact ⟨m, hm, hit⟩
  | cons ts rest ih =>
    obtain ⟨m1, hm1, hit1, hks1, hKT1⟩ :=
      clean_keeps_live c m ts K T it hm hks hKT (hts ts (by simp)) hit
    exact ih (c.clean ts) m1 hm1 hks1 hKT1
      (fun x hx => hts x (by simp [hx])) hit1

theorem foldl_clean_items_mono (tss : List Int) (c : MyStateCache) (k : String) :
    lookupItems (tss.foldl MyStateCache.clean c).items k = none ∨
    lookupItems (tss.foldl MyStateCache.clean c).items k = lookupItems c.items k := by
  induction tss generalizing c with
  | nil => exact Or.inr rfl
  | cons ts rest ih =>
    rcases ih (c.clean ts) with hno | heq
    · exact Or.inl hno
    · rcases clean_items_mono c ts k with hno2 | heq2
      · exact Or.inl (heq.trans hno2)
      · exact Or.inr (heq.trans heq2)

/-- C1: if `Set(k, v, L)` happens at time `t` on a live cache, then — whatever
sweeps run at times up to the query time — `Get(k)` returns `v` at every query
time in `[t, t+L)`, and returns an absent (error) result at every query time
`≥ t+L`, whether or not the entry has been physically swept (lazy expiration
on read). -/
theorem C1_lazy_expiration (c : MyStateCache) (m : List (String × cachedItem))
    (st : MyState) (lifespanSec t : Int) (c1 : MyStateCache) (tss : List Int)
    (q : Int)
    (hm : c.items = some m)
    (hks : keysOK c.exp.recs)
    (hset : c.Set (some st) lifespanSec t = .ok c1)
    (hts : ∀ ts ∈ tss, ts ≤ q) :
    (t ≤ q → q < t + lifespanSec →
      (tss.foldl MyStateCache.clean c1).Get st.Id q = .ok st) ∧
    (t + lifespanSec ≤ q →
      ∃ msg, (tss.foldl MyStateCache.clean c1).Get st.Id q = .error msg) := by
  have hc1 : c1 = { c with
      items := some (aset m st.Id ⟨st, t, t + lifespanSec⟩)
      exp := setHeap c.exp st.Id (t + lifespanSec) } :=
    (SetResult.ok.inj ((Set_some_eq c m hm st lifespanSec t).symm.trans hset)).symm
  have hm1 : c1.items = some (aset m st.Id ⟨st, t, t + lifespanSec⟩) := by rw [hc1]
  have hit1 : alookup (aset m st.Id ⟨st, t, t + lifespanSec⟩) st.Id =
      some ⟨st, t, t + lifespanSec⟩ := by rw [alookup_aset, if_pos rfl]
  constructor
  · intro hq1 hq2
    have hksc1 : keysOK c1.exp.recs := by
      rw [hc1]
      exact setHeap_keysOK _ _ _ hks
    have hKT1 : recsKT c1.exp.recs st.Id = some (st.Id, t + lifespanSec) := by
      rw [hc1]
      exact setHeap_recsKT_self _ _ _ hks
    obtain ⟨m', hm', hlk⟩ := foldl_clean_keeps_live tss c1 _ st.Id
      (t + lifespanSec) ⟨st, t, t + lifespanSec⟩ hm1 hksc1 hKT1
      (fun ts h => lt_of_le_of_lt (hts ts h) hq2) hit1
    have hl : lookupItems (tss.foldl MyStateCache.clean c1).items st.Id =
        some ⟨st, t, t + lifespanSec⟩ := by
      rw [hm']
      exact hlk
    rw [Get_some_fields _ _ _ _ _ _ hl, if_neg (by omega)]
  · intro hq
    rcases foldl_clean_items_mono tss c1 st.Id with hno | heq
    · exact ⟨"state item not found", Get_none _ _ _ hno⟩
    · refine ⟨"state item was found as expired", ?_⟩
      have hl : lookupItems (tss.foldl MyStateCache.clean c1).items st.Id =
          some ⟨st, t, t + lifespanSec⟩ := by
        rw [heq, hm1]
        exact hit1
      rw [Get_some_fields _ _ _ _ _ _ hl, if_pos (by omega)]

/-- C1 witness: fresh cache, `Set("a", ⟨"a",[1]⟩, 10s)` at `t = 0`, one sweep
at time 3; `Get` at `q = 5` returns the value, `Get` at `q = 12` is absent. -/
theorem C1_witness :
    (([3] : List Int).foldl MyStateCache.clean cacheA10).Get "a" 5 =
      .ok ⟨"a", [1]⟩ ∧
    ∃ msg, (([3] : List Int).foldl MyStateCache.clean cacheA10).Get "a" 12 =
      .error msg := by
  have hks : keysOK newMyStateCache.exp.recs := by
    intro k r h
    simp [newMyStateCache, alookup] at h
  have hset : newMyStateCache.Set (some ⟨"a", [1]⟩) 10 0 = .ok cacheA10 := by
    simp +decide [MyStateCache.Set, setHeap, newMyStateCache, alookup, heapPush,
      ExpHeap.pushQ, setIdx, aset, heapUpLoop, ExpHeap.timeAt, ExpHeap.recOf,
      cacheA10]
  constructor
  · exact (C1_lazy_expiration newMyStateCache [] ⟨"a", [1]⟩ 10 0 cacheA10 [3] 5
      rfl hks hset (by intro ts h; simp at h; omega)).1 (by norm_num) (by norm_num)
  · exact (C1_lazy_expiration newMyStateCache [] ⟨"a", [1]⟩ 10 0 cacheA10 [3] 12
      rfl hks hset (by intro ts h; simp at h; omega)).2 (by norm_num)

theorem getD_set_self (l : List α) (n : Nat) (a d : α) (h : n < l.length) :
    (l.set n a).getD n d = a := by
  simp [List.getD_eq_getElem?_getD, List.getElem?_set_self h]

theorem getD_set_ne (l : List α) (n m : Nat) (a d : α) (h : n ≠ m) :
    (l.set n a).getD m d = l.getD m d := by
  simp [List.getD_eq_getElem?_getD, List.getElem?_set_ne h]

theorem recOf_time_congr (recs' recs : List (String × ItemExpiry))
    (hr : recsKT recs' = recsKT recs) (k : String) :
    ((alookup recs' k).getD ⟨k, 0, 0⟩).unixExpiryTime =
      ((alookup recs k).getD ⟨k, 0, 0⟩).unixExpiryTime := by
  have h := congrFun hr k
  rw [recsKT, recsKT] at h
  cases ha' : alookup recs' k with
  | none =>
    cases ha : alookup recs k with
    | none => rfl
    | some r => rw [ha', ha] at h; exact absurd h (by simp)
  | some r' =>
    cases ha : alookup recs k with
    | none => rw [ha', ha] at h; exact absurd h (by simp)
    | some r =>
      rw [ha', ha] at h
      simp only [Option.map_some', Option.some.injEq, Prod.mk.injEq] at h
      simpa using h.2

theorem timeAt_swapQ (h : ExpHeap) (i j p : Int)
    (hi0 : 0 ≤ i) (hin : i < (h.arr.length : Int))
    (hj0 : 0 ≤ j) (hjn : j < (h.arr.length : Int))
    (hp0 : 0 ≤ p) (hpn : p < (h.arr.length : Int)) :
    (h.swapQ i j).timeAt p =
      if p = i then h.timeAt j else if p = j then h.timeAt i else h.timeAt p := by
  have hrec : ∀ k, ((alookup (h.swapQ i j).recs k).getD ⟨k, 0, 0⟩).unixExpiryTime =
      ((alookup h.recs k).getD ⟨k, 0, 0⟩).unixExpiryTime := by
    intro k
    refine recOf_time_congr _ _ ?_ k
    rw [ExpHeap.swapQ]
    rw [recsKT_setIdx, recsKT_setIdx]
  rw [ExpHeap.timeAt, ExpHeap.recOf, hrec]
  have harr : (h.swapQ i j).arr =
      (h.arr.set i.toNat (h.arr.getD j.toNat "")).set j.toNat
        (h.arr.getD i.toNat "") := rfl
  rw [harr]
  by_cases hpj : p = j
  · subst hpj
    rw [getD_set_self _ _ _ _ (by simp; omega)]
    by_cases hpi : p = i
    · rw [if_pos hpi, hpi, ExpHeap.timeAt, ExpHeap.recOf]
    · rw [if_neg hpi, if_pos rfl, ExpHeap.timeAt, ExpHeap.recOf]
  · have hpjN : p.toNat ≠ j.toNat := by omega
    rw [getD_set_ne _ _ _ _ _ (fun hc => hpjN hc.symm)]
    by_cases hpi : p = i
    · subst hpi
      rw [getD_set_self _ _ _ _ (by omega)]
      rw [if_pos rfl, ExpHeap.timeAt, ExpHeap.recOf]
    · have hpiN : p.toNat ≠ i.toNat := by omega
      rw [getD_set_ne _ _ _ _ _ (fun hc => hpiN hc.symm)]
      rw [if_neg hpi, if_neg hpj, ExpHeap.timeAt, ExpHeap.recOf]

theorem swapQ_arrLen (h : ExpHeap) (i j : Int) :
    (h.swapQ i j).arr.length = h.arr.length := by
  simp [ExpHeap.swapQ]

theorem heapOrd_def (h : ExpHeap) :
    h.heapOrd ↔ ∀ p : Int, 1 ≤ p → p < (h.arr.length : Int) →
      h.timeAt ((p - 1) / 2) ≤ h.timeAt p := Iff.rfl

theorem heapUpLoop_ord : ∀ (h : ExpHeap) (j : Int), 0 ≤ j →
    j < (h.arr.length : Int) →
    (∀ p : Int, 1 ≤ p → p < (h.arr.length : Int) → p ≠ j →
      h.timeAt ((p - 1) / 2) ≤ h.timeAt p) →
    (∀ c : Int, 1 ≤ c → c < (h.arr.length : Int) → (c - 1) / 2 = j → 1 ≤ j →
      h.timeAt ((j - 1) / 2) ≤ h.timeAt c) →
    (heapUpLoop h j).heapOrd := by
  intro h j
  induction h, j using heapUpLoop.induct with
  | case1 h j hg =>
    intro hj0 hjn ha hb
    rw [heapUpLoop, dif_pos hg, heapOrd_def]
    intro p hp1 hpn
    by_cases hpj : p = j
    · rw [hpj]
      rcases hg with hij | hnlt
      · have hj00 : j = 0 := by
          by_contra h0
          rw [Int.tdiv_eq_ediv (by omega) (by norm_num)] at hij
          omega
        omega
      · rw [Int.tdiv_eq_ediv (by omega : (0:Int) ≤ j - 1) (by norm_num)] at hnlt
        exact not_lt.mp hnlt
    · exact ha p hp1 hpn hpj
  | case2 h j hg ih =>
    intro hj0 hjn ha hb
    have hg' := hg
    push_neg at hg
    obtain ⟨hij, hlt⟩ := hg
    have hj1 : 1 ≤ j := by
      by_contra h0
      have hj00 : j = 0 := by omega
      apply hij
      rw [hj00]
      decide
    have htd : (j - 1).tdiv 2 = (j - 1) / 2 :=
      Int.tdiv_eq_ediv (by omega) (by norm_num)
    rw [heapUpLoop, dif_neg hg', htd]
    rw [htd] at ih hlt
    have hi0 : (0:Int) ≤ (j - 1) / 2 := by omega
    have hiltj : (j - 1) / 2 < j := by omega
    have hijn : ¬ ((j - 1) / 2 = j) := by omega
    have hlen : (((h.swapQ ((j - 1) / 2) j).arr.length : Nat) : Int) =
        (h.arr.length : Int) := by rw [swapQ_arrLen]
    have hT : ∀ p : Int, 0 ≤ p → p < (h.arr.length : Int) →
        (h.swapQ ((j - 1) / 2) j).timeAt p =
          if p = (j - 1) / 2 then h.timeAt j
          else if p = j then h.timeAt ((j - 1) / 2) else h.timeAt p :=
      fun p hp0 hpn => timeAt_swapQ h _ j p hi0 (by omega) hj0 hjn hp0 hpn
    apply ih hi0 (by omega)
    · intro p hp1 hpn' hpne
      have hpn : p < (h.arr.length : Int) := by omega
      have hP0 : (0:Int) ≤ (p - 1) / 2 := by omega
      have hPp : (p - 1) / 2 < p := by omega
      rw [hT p (by omega) hpn, hT ((p - 1) / 2) hP0 (by omega), if_neg hpne]
      by_cases hpj : p = j
      · rw [if_pos hpj, if_pos (by rw [hpj])]
        exact le_of_lt hlt
      · rw [if_neg hpj]
        by_cases hPI : (p - 1) / 2 = (j - 1) / 2
        · rw [if_pos hPI]
          have h1 := ha p hp1 hpn hpj
          rw [hPI] at h1
          exact le_of_lt (lt_of_lt_of_le hlt h1)
        · rw [if_neg hPI]
          by_cases hPJ : (p - 1) / 2 = j
          · rw [if_pos hPJ]
            exact hb p hp1 hpn hPJ hj1
          · rw [if_neg hPJ]
            exact ha p hp1 hpn hpj
    · intro c hc1 hcn' hci hi1
      have hcn : c < (h.arr.length : Int) := by omega
      have hPi0 : (0:Int) ≤ ((j - 1) / 2 - 1) / 2 := by omega
      have hPiI : ((j - 1) / 2 - 1) / 2 < (j - 1) / 2 := by omega
      rw [hT (((j - 1) / 2 - 1) / 2) hPi0 (by omega),
        if_neg (by omega : ¬ (((j - 1) / 2 - 1) / 2 = (j - 1) / 2)),
        if_neg (by omega : ¬ (((j - 1) / 2 - 1) / 2 = j))]
      rw [hT c (by omega) hcn]
      by_cases hcj : c = j
      · rw [if_neg (by omega : ¬ (c = (j - 1) / 2)), if_pos hcj]
        exact ha ((j - 1) / 2) hi1 (by omega) hijn
      · have hcI : ¬ (c = (j - 1) / 2) := by omega
        rw [if_neg hcI, if_neg hcj]
        refine le_trans (ha ((j - 1) / 2) hi1 (by omega) hijn) ?_
        have h2 := ha c hc1 hcn hcj
        rw [hci] at h2
        exact h2

theorem minChild_facts (h : ExpHeap) (n i : Int) (hg : 2 * i + 1 < n)
    (hi0 : 0 ≤ i) :
    2 * i + 1 ≤ minChild h n i ∧ minChild h n i ≤ 2 * i + 2 ∧
    minChild h n i < n ∧ (minChild h n i - 1) / 2 = i := by
  rw [minChild]
  split
  · rename_i hc
    exact ⟨by omega, by omega, hc.1, by omega⟩
  · exact ⟨by omega, by omega, hg, by omega⟩

theorem minChild_min (h : ExpHeap) (n i : Int) (hg : 2 * i + 1 < n)
    (hi0 : 0 ≤ i) (c : Int) (hc : (c - 1) / 2 = i) (hc1 : 1 ≤ c) (hcn : c < n) :
    h.timeAt (minChild h n i) ≤ h.timeAt c := by
  have hcc : c = 2 * i + 1 ∨ c = 2 * i + 2 := by omega
  rw [minChild]
  split
  · rename_i hcond
    rcases hcc with h1 | h1
    · rw [h1]
      exact le_of_lt hcond.2
    · rw [h1]
  · rename_i hcond
    rcases hcc with h1 | h1
    · rw [h1]
    · rw [h1]
      push_neg at hcond
      exact hcond (by omega)

theorem heapDownLoop_main : ∀ (h : ExpHeap) (n i : Int),
    n ≤ (h.arr.length : Int) → 0 ≤ i → i < n →
    (∀ p : Int, 1 ≤ p → p < n → p ≠ i → (p - 1) / 2 ≠ i →
      h.timeAt ((p - 1) / 2) ≤ h.timeAt p) →
    (∀ c : Int, 1 ≤ c → c < n → (c - 1) / 2 = i → 1 ≤ i →
      h.timeAt ((i - 1) / 2) ≤ h.timeAt c) →
    (∀ p : Int, 1 ≤ p → p < n → p ≠ (heapDownLoop h n i).2 →
      (heapDownLoop h n i).1.timeAt ((p - 1) / 2) ≤
        (heapDownLoop h n i).1.timeAt p) ∧
    ((heapDownLoop h n i).2 ≠ i →
      (heapDownLoop h n i).1.timeAt (((heapDownLoop h n i).2 - 1) / 2) ≤
        (heapDownLoop h n i).1.timeAt (heapDownLoop h n i).2) ∧
    ((heapDownLoop h n i).2 = i → (heapDownLoop h n i).1 = h) ∧
    i ≤ (heapDownLoop h n i).2 ∧ (heapDownLoop h n i).2 < n := by
  intro h n i
  induction h, n, i using heapDownLoop.induct with
  | case1 h n i hg =>
    intro hn hi0 hin ha2 hbr
    rw [heapDownLoop, dif_pos hg]
    have hchild : 2 * i + 1 ≥ n := by omega
    refine ⟨?_, ?_, fun _ => rfl, le_refl i, hin⟩
    · intro p hp1 hpn hpne
      by_cases hpar : (p - 1) / 2 = i
      · omega
      · exact ha2 p hp1 hpn hpne hpar
    · intro hne
      exact absurd rfl hne
  | case2 h n i hg hcond =>
    intro hn hi0 hin ha2 hbr
    rw [heapDownLoop, dif_neg hg, if_pos hcond]
    have hgl : 2 * i + 1 < n := by omega
    refine ⟨?_, ?_, fun _ => rfl, le_refl i, hin⟩
    · intro p hp1 hpn hpne
      by_cases hpar : (p - 1) / 2 = i
      · rw [hpar]
        refine le_trans (not_lt.mp hcond) ?_
        exact minChild_min h n i hgl hi0 p hpar hp1 hpn
      · exact ha2 p hp1 hpn hpne hpar
    · intro hne
      exact absurd rfl hne
  | case3 h n i hg hcond ih =>
    intro hn hi0 hin ha2 hbr
    rw [heapDownLoop, dif_neg hg, if_neg hcond]
    have hlt : h.timeAt (minChild h n i) < h.timeAt i := not_not.mp hcond
    have hgl : 2 * i + 1 < n := by omega
    obtain ⟨hm1, hm2, hmn, hmpar⟩ := minChild_facts h n i hgl hi0
    have hmi : i < minChild h n i := by omega
    have hm0 : (0:Int) ≤ minChild h n i := by omega
    have hlen : (((h.swapQ i (minChild h n i)).arr.length : Nat) : Int) =
        (h.arr.length : Int) := by rw [swapQ_arrLen]
    have hT : ∀ p : Int, 0 ≤ p → p < (h.arr.length : Int) →
        (h.swapQ i (minChild h n i)).timeAt p =
          if p = i then h.timeAt (minChild h n i)
          else if p = minChild h n i then h.timeAt i else h.timeAt p :=
      fun p hp0 hpn =>
        timeAt_swapQ h i (minChild h n i) p hi0 (by omega) hm0 (by omega) hp0 hpn
    have hmin : ∀ c : Int, (c - 1) / 2 = i → 1 ≤ c → c < n →
        h.timeAt (minChild h n i) ≤ h.timeAt c :=
      fun c hc hc1 hcn => minChild_min h n i hgl hi0 c hc hc1 hcn
    have ihc := ih (by omega) hm0 hmn ?_ ?_
    · obtain ⟨c1, c2, c3, c4, c5⟩ := ihc
      refine ⟨c1, ?_, ?_, by omega, c5⟩
      · intro hne
        by_cases him : (heapDownLoop (h.swapQ i (minChild h n i)) n
            (minChild h n i)).2 = minChild h n i
        · rw [c3 him, him]
          rw [hT (minChild h n i) hm0 (by omega),
            hT ((minChild h n i - 1) / 2) (by omega) (by omega)]
          rw [hmpar]
          rw [if_pos rfl, if_neg (by omega : ¬ (minChild h n i = i)),
            if_pos rfl]
          exact le_of_lt hlt
        · exact c2 him
      · intro heq
        exfalso
        omega
    · intro p hp1 hpn hpm hparm
      have hpnL : p < (h.arr.length : Int) := by omega
      rw [hT p (by omega) hpnL, hT ((p - 1) / 2) (by omega) (by omega)]
      by_cases hpi : p = i
      · have hi1 : 1 ≤ i := by omega
        rw [if_pos hpi]
        have hpari : ¬ ((p - 1) / 2 = i) := by omega
        have hparm2 : ¬ ((p - 1) / 2 = minChild h n i) := by omega
        rw [if_neg hpari, if_neg hparm2]
        rw [hpi]
        exact hbr (minChild h n i) (by omega) hmn hmpar hi1
      · rw [if_neg hpi]
        by_cases hpar : (p - 1) / 2 = i
        · rw [if_pos hpar, if_neg hpm]
          exact hmin p hpar hp1 hpn
        · have hparm2 : ¬ ((p - 1) / 2 = minChild h n i) := hparm
          rw [if_neg hpar, if_neg hparm2, if_neg hpm]
          exact ha2 p hp1 hpn hpi hpar
    · intro c hc1 hcn hcpar hcm1
      have hci : ¬ (c = i) := by omega
      have hcm : ¬ (c = minChild h n i) := by omega
      rw [hT c (by omega) (by omega), hT ((minChild h n i - 1) / 2)
        (by omega) (by omega)]
      rw [hmpar, if_pos rfl, if_neg hci, if_neg hcm]
      have h2 := ha2 c hc1 hcn hci (by omega)
      rw [hcpar] at h2
      exact h2

theorem getD_mem (l : List String) (p : Nat) (hp : p < l.length) :
    l.getD p "" ∈ l := by
  rw [List.getD_eq_getElem?_getD, List.getElem?_eq_getElem hp]
  exact List.getElem_mem hp

theorem HeapWF_getD_inj (h : ExpHeap) (hw : HeapWF h) :
    ∀ p q : Nat, p < h.arr.length → q < h.arr.length →
      h.arr.getD p "" = h.arr.getD q "" → p = q := by
  intro p q hp hq heq
  obtain ⟨w1, _, _⟩ := hw
  obtain ⟨rp, hrp, hip⟩ := w1 p hp
  obtain ⟨rq, hrq, hiq⟩ := w1 q hq
  rw [heq] at hrp
  rw [hrp] at hrq
  cases hrq
  omega

theorem swapQ_lookup (h : ExpHeap) (i j : Int) (k : String) :
    alookup (h.swapQ i j).recs k =
      (alookup h.recs k).map fun r =>
        if k = h.arr.getD i.toNat "" then { r with index := j }
        else if k = h.arr.getD j.toNat "" then { r with index := i } else r := by
  show alookup (setIdx (setIdx h.recs (h.arr.getD j.toNat "") i)
    (h.arr.getD i.toNat "") j) k = _
  rw [alookup_setIdx, alookup_setIdx]
  cases alookup h.recs k with
  | none => rfl
  | some r =>
    simp only [Option.map_some']
    by_cases hki : k = h.arr.getD i.toNat ""
    · rw [if_pos hki, if_pos hki]
      by_cases hkj : k = h.arr.getD j.toNat ""
      · rw [if_pos hkj]
      · rw [if_neg hkj]
    · rw [if_neg hki, if_neg hki]

theorem swapQ_getD (h : ExpHeap) (i j : Int) (hi0 : 0 ≤ i)
    (hin : i < (h.arr.length : Int)) (hj0 : 0 ≤ j) (hjn : j < (h.arr.length : Int))
    (p : Nat) :
    (h.swapQ i j).arr.getD p "" =
      if p = j.toNat then h.arr.getD i.toNat ""
      else if p = i.toNat then h.arr.getD j.toNat "" else h.arr.getD p "" := by
  show ((h.arr.set i.toNat (h.arr.getD j.toNat "")).set j.toNat
    (h.arr.getD i.toNat "")).getD p "" = _
  by_cases hpj : p = j.toNat
  · rw [if_pos hpj, hpj, getD_set_self _ _ _ _ (by simp; omega)]
  · rw [if_neg hpj, getD_set_ne _ _ _ _ _ (fun hc => hpj hc.symm)]
    by_cases hpi : p = i.toNat
    · rw [if_pos hpi, hpi, getD_set_self _ _ _ _ (by omega)]
    · rw [if_neg hpi, getD_set_ne _ _ _ _ _ (fun hc => hpi hc.symm)]

theorem HeapWF_swapQ (h : ExpHeap) (i j : Int) (hi0 : 0 ≤ i)
    (hin : i < (h.arr.length : Int)) (hj0 : 0 ≤ j) (hjn : j < (h.arr.length : Int))
    (hw : HeapWF h) : HeapWF (h.swapQ i j) := by
  have hinj := HeapWF_getD_inj h hw
  obtain ⟨w1, w2, w3⟩ := hw
  have hlen : (h.swapQ i j).arr.length = h.arr.length := swapQ_arrLen h i j
  refine ⟨?_, ?_, ?_⟩
  · intro p hp
    rw [hlen] at hp
    rw [swapQ_getD h i j hi0 hin hj0 hjn p, swapQ_lookup]
    by_cases hpj : p = j.toNat
    · rw [if_pos hpj]
      obtain ⟨ri, hri, hii⟩ := w1 i.toNat (by omega)
      rw [hri]
      simp only [Option.map_some', if_pos rfl]
      refine ⟨{ ri with index := j }, rfl, ?_⟩
      show j = (p : Int)
      omega
    · rw [if_neg hpj]
      by_cases hpi : p = i.toNat
      · rw [if_pos hpi]
        obtain ⟨rj, hrj, hjj⟩ := w1 j.toNat (by omega)
        rw [hrj]
        have hne : ¬ (h.arr.getD j.toNat "" = h.arr.getD i.toNat "") := by
          intro hc
          have := hinj j.toNat i.toNat (by omega) (by omega) hc
          omega
        simp only [Option.map_some', if_neg hne, if_pos rfl]
        refine ⟨{ rj with index := i }, rfl, ?_⟩
        show i = (p : Int)
        omega
      · rw [if_neg hpi]
        obtain ⟨rp, hrp, hpp⟩ := w1 p (by omega)
        rw [hrp]
        have hnei : ¬ (h.arr.getD p "" = h.arr.getD i.toNat "") := by
          intro hc
          exact hpi (hinj p i.toNat (by omega) (by omega) hc)
        have hnej : ¬ (h.arr.getD p "" = h.arr.getD j.toNat "") := by
          intro hc
          exact hpj (hinj p j.toNat (by omega) (by omega) hc)
        simp only [Option.map_some', if_neg hnei, if_neg hnej]
        exact ⟨rp, rfl, hpp⟩
  · intro k r' hr'
    rw [swapQ_lookup] at hr'
    cases halt : alookup h.recs k with
    | none => rw [halt] at hr'; exact absurd hr' (by simp)
    | some r =>
      rw [halt] at hr'
      simp only [Option.map_some', Option.some.injEq] at hr'
      by_cases hki : k = h.arr.getD i.toNat ""
      · rw [if_pos hki] at hr'
        right
        rw [← hr']
        refine ⟨hj0, ?_, ?_⟩
        · show j.toNat < (h.swapQ i j).arr.length
          rw [hlen]
          omega
        · show (h.swapQ i j).arr.getD j.toNat "" = k
          rw [swapQ_getD h i j hi0 hin hj0 hjn j.toNat, if_pos rfl]
          exact hki.symm
      · rw [if_neg hki] at hr'
        by_cases hkj : k = h.arr.getD j.toNat ""
        · rw [if_pos hkj] at hr'
          right
          rw [← hr']
          have hij : i.toNat ≠ j.toNat := by
            intro hc
            apply hki
            rw [hkj, hc]
          refine ⟨hi0, ?_, ?_⟩
          · show i.toNat < (h.swapQ i j).arr.length
            rw [hlen]
            omega
          · show (h.swapQ i j).arr.getD i.toNat "" = k
            rw [swapQ_getD h i j hi0 hin hj0 hjn i.toNat, if_neg hij, if_pos rfl]
            exact hkj.symm
        · rw [if_neg hkj] at hr'
          rw [← hr']
          rcases w2 k r halt with ⟨hm1, hm2⟩ | ⟨hv0, hvl, hvk⟩
          · left
            refine ⟨hm1, ?_⟩
            intro hmem
            apply hm2
            have hmem2 : k ∈ (h.arr.set i.toNat (h.arr.getD j.toNat "")).set
                j.toNat (h.arr.getD i.toNat "") := hmem
            rcases List.mem_or_eq_of_mem_set hmem2 with hmem3 | hk2
            · rcases List.mem_or_eq_of_mem_set hmem3 with hmem4 | hk3
              · exact hmem4
              · exact absurd hk3 hkj
            · exact absurd hk2 hki
          · right
            refine ⟨hv0, ?_, ?_⟩
            · rw [hlen]
              exact hvl
            · rw [swapQ_getD h i j hi0 hin hj0 hjn r.index.toNat]
              have hqj : r.index.toNat ≠ j.toNat := by
                intro hc
                apply hkj
                rw [← hvk, hc]
              have hqi : r.index.toNat ≠ i.toNat := by
                intro hc
                apply hki
                rw [← hvk, hc]
              rw [if_neg hqj, if_neg hqi]
              exact hvk
  · refine keysOK_of_recsKT _ _ ?_ w3
    rw [ExpHeap.swapQ, recsKT_setIdx, recsKT_setIdx]

theorem HeapWF_upLoop : ∀ (h : ExpHeap) (j : Int), 0 ≤ j →
    j < (h.arr.length : Int) → HeapWF h → HeapWF (heapUpLoop h j) := by
  intro h j
  induction h, j using heapUpLoop.induct with
  | case1 h j hg =>
    intro hj0 hjn hw
    rw [heapUpLoop, dif_pos hg]
    exact hw
  | case2 h j hg ih =>
    intro hj0 hjn hw
    have hg' := hg
    push_neg at hg
    obtain ⟨hij, hlt⟩ := hg
    have hj1 : 1 ≤ j := by
      by_contra h0
      have hj00 : j = 0 := by omega
      apply hij
      rw [hj00]
      decide
    have htd : (j - 1).tdiv 2 = (j - 1) / 2 :=
      Int.tdiv_eq_ediv (by omega) (by norm_num)
    rw [heapUpLoop, dif_neg hg']
    have hi0 : (0:Int) ≤ (j - 1).tdiv 2 := by rw [htd]; omega
    have hilt : (j - 1).tdiv 2 < j := by rw [htd]; omega
    refine ih hi0 ?_ (HeapWF_swapQ h _ j hi0 (by omega) hj0 hjn hw)
    rw [show (((h.swapQ ((j - 1).tdiv 2) j).arr.length : Nat) : Int) =
      (h.arr.length : Int) by rw [swapQ_arrLen]]
    omega

theorem HeapWF_downLoop : ∀ (h : ExpHeap) (n i : Int),
    n ≤ (h.arr.length : Int) → 0 ≤ i → HeapWF h →
    HeapWF (heapDownLoop h n i).1 := by
  intro h n i
  induction h, n, i using heapDownLoop.induct with
  | case1 h n i hg =>
    intro hn hi0 hw
    rw [heapDownLoop, dif_pos hg]
    exact hw
  | case2 h n i hg hcond =>
    intro hn hi0 hw
    rw [heapDownLoop, dif_neg hg, if_pos hcond]
    exact hw
  | case3 h n i hg hcond ih =>
    intro hn hi0 hw
    rw [heapDownLoop, dif_neg hg, if_neg hcond]
    have hgl : 2 * i + 1 < n := by omega
    obtain ⟨hm1, hm2, hmn, hmpar⟩ := minChild_facts h n i hgl hi0
    refine ih ?_ (by omega)
      (HeapWF_swapQ h i _ hi0 (by omega) (by omega) (by omega) hw)
    rw [show (((h.swapQ i (minChild h n i)).arr.length : Nat) : Int) =
      (h.arr.length : Int) by rw [swapQ_arrLen]]
    omega

theorem getD_take (l : List String) (n p : Nat) (hp : p < n) :
    (l.take n).getD p "" = l.getD p "" := by
  rw [List.getD_eq_getElem?_getD, List.getD_eq_getElem?_getD]
  rw [List.getElem?_take]
  rw [if_pos hp]

theorem mem_take_getD (l : List String) (n : Nat) (k : String)
    (hmem : k ∈ l.take n) : ∃ p : Nat, p < n ∧ p < l.length ∧ l.getD p "" = k := by
  obtain ⟨p, hpl, hpk⟩ := List.mem_iff_getElem.mp hmem
  have hplen : p < n ∧ p < l.length := by
    have := hpl
    rw [List.length_take] at this
    omega
  refine ⟨p, hplen.1, hplen.2, ?_⟩
  rw [← hpk, List.getElem_take]
  rw [List.getD_eq_getElem?_getD, List.getElem?_eq_getElem hplen.2]
  rfl

theorem HeapWF_popQ (h : ExpHeap) (hw : HeapWF h) : HeapWF (h.popQ).1 := by
  have hinj := HeapWF_getD_inj h hw
  obtain ⟨w1, w2, w3⟩ := hw
  have hlook : ∀ k, alookup (h.popQ).1.recs k =
      (alookup h.recs k).map fun r =>
        if k = h.arr.getD (h.arr.length - 1) "" then { r with index := -1 }
        else r := by
    intro k
    show alookup (setIdx h.recs (h.arr.getD (h.arr.length - 1) "") (-1)) k = _
    rw [alookup_setIdx]
  have harr : ∀ p : Nat, p < h.arr.length - 1 →
      (h.popQ).1.arr.getD p "" = h.arr.getD p "" := by
    intro p hp
    show (h.arr.take (h.arr.length - 1)).getD p "" = _
    exact getD_take _ _ _ hp
  have hlen : (h.popQ).1.arr.length = h.arr.length - 1 := by
    show (h.arr.take (h.arr.length - 1)).length = _
    simp
  refine ⟨?_, ?_, ?_⟩
  · intro p hp
    rw [hlen] at hp
    rw [harr p hp, hlook]
    obtain ⟨rp, hrp, hpp⟩ := w1 p (by omega)
    rw [hrp]
    have hne : ¬ (h.arr.getD p "" = h.arr.getD (h.arr.length - 1) "") := by
      intro hc
      have := hinj p (h.arr.length - 1) (by omega) (by omega) hc
      omega
    simp only [Option.map_some', if_neg hne]
    exact ⟨rp, rfl, hpp⟩
  · intro k r' hr'
    rw [hlook] at hr'
    cases halt : alookup h.recs k with
    | none => rw [halt] at hr'; exact absurd hr' (by simp)
    | some r =>
      rw [halt] at hr'
      simp only [Option.map_some', Option.some.injEq] at hr'
      by_cases hkl : k = h.arr.getD (h.arr.length - 1) ""
      · rw [if_pos hkl] at hr'
        left
        rw [← hr']
        refine ⟨rfl, ?_⟩
        intro hmem
        have hmem2 : k ∈ h.arr.take (h.arr.length - 1) := hmem
        obtain ⟨p, hpn, hpl, hpk⟩ := mem_take_getD _ _ _ hmem2
        have := hinj p (h.arr.length - 1) hpl (by omega) (by rw [hpk, hkl])
        omega
      · rw [if_neg hkl] at hr'
        rw [← hr']
        rcases w2 k r halt with ⟨hm1, hm2⟩ | ⟨hv0, hvl, hvk⟩
        · left
          refine ⟨hm1, ?_⟩
          intro hmem
          exact hm2 (List.mem_of_mem_take hmem)
        · right
          have hne : r.index.toNat ≠ h.arr.length - 1 := by
            intro hc
            apply hkl
            rw [← hvk, hc]
          refine ⟨hv0, by omega, ?_⟩
          rw [hlen] at *
          rw [harr r.index.toNat (by omega)]
          exact hvk
  · refine keysOK_of_recsKT _ _ ?_ w3
    show recsKT (setIdx h.recs (h.arr.getD (h.arr.length - 1) "") (-1)) = _
    rw [recsKT_setIdx]

theorem HeapWF_aset_retime (h : ExpHeap) (k : String) (r : ItemExpiry) (T : Int)
    (hw : HeapWF h) (hlk : alookup h.recs k = some r) :
    HeapWF { h with recs := aset h.recs k { r with unixExpiryTime := T } } := by
  obtain ⟨w1, w2, w3⟩ := hw
  refine ⟨?_, ?_, keysOK_aset_retime h.recs k r T w3 (w3 k r hlk)⟩
  · intro p hp
    obtain ⟨rp, hrp, hpp⟩ := w1 p hp
    rw [show ({ h with recs := aset h.recs k { r with unixExpiryTime := T } } :
      ExpHeap).arr = h.arr from rfl]
    show ∃ r2, alookup (aset h.recs k { r with unixExpiryTime := T })
      (h.arr.getD p "") = some r2 ∧ r2.index = (p : Int)
    rw [alookup_aset]
    by_cases hpk : h.arr.getD p "" = k
    · rw [if_pos hpk]
      rw [hpk, hlk] at hrp
      cases hrp
      exact ⟨_, rfl, hpp⟩
    · rw [if_neg hpk]
      exact ⟨rp, hrp, hpp⟩
  · intro k2 r2 h2
    have h2' : alookup (aset h.recs k { r with unixExpiryTime := T }) k2 =
        some r2 := h2
    rw [alookup_aset] at h2'
    by_cases hk2 : k2 = k
    · rw [if_pos hk2] at h2'
      cases h2'
      rcases w2 k r hlk with ⟨hm1, hm2⟩ | ⟨hv0, hvl, hvk⟩
      · left
        rw [hk2]
        exact ⟨hm1, hm2⟩
      · right
        rw [hk2]
        exact ⟨hv0, hvl, hvk⟩
    · rw [if_neg hk2] at h2'
      exact w2 k2 r2 h2'

theorem timeAt_aset_ne (h : ExpHeap) (k : String) (r' : ItemExpiry) (p : Int)
    (hne : h.arr.getD p.toNat "" ≠ k) :
    ({ h with recs := aset h.recs k r' } : ExpHeap).timeAt p = h.timeAt p := by
  rw [ExpHeap.timeAt, ExpHeap.timeAt, ExpHeap.recOf, ExpHeap.recOf]
  show ((alookup (aset h.recs k r') (h.arr.getD p.toNat "")).getD _).unixExpiryTime = _
  rw [alookup_aset, if_neg hne]

theorem timeAt_aset_self (h : ExpHeap) (k : String) (r' : ItemExpiry) (p : Int)
    (heq : h.arr.getD p.toNat "" = k) :
    ({ h with recs := aset h.recs k r' } : ExpHeap).timeAt p =
      r'.unixExpiryTime := by
  rw [ExpHeap.timeAt, ExpHeap.recOf]
  show ((alookup (aset h.recs k r') (h.arr.getD p.toNat "")).getD _).unixExpiryTime = _
  rw [alookup_aset, if_pos heq]
  rfl

theorem count_set_str (l : List String) : ∀ (n : Nat), n < l.length →
    ∀ (a x : String), (l.set n a).count x +
      (if l.getD n "" = x then 1 else 0) =
      l.count x + (if a = x then 1 else 0) := by
  induction l with
  | nil =>
    intro n hn
    simp at hn
  | cons b t ih =>
    intro n hn a x
    cases n with
    | zero =>
      simp only [List.set, List.getD_cons_zero, List.count_cons]
      by_cases hb : b = x <;> by_cases ha : a = x <;>
        simp [hb, ha] <;> omega
    | succ n =>
      simp only [List.set, List.getD_cons_succ, List.count_cons]
      have h2 := ih n (by simpa using hn) a x
      simp only [List.getD_eq_getElem?_getD] at h2 ⊢
      by_cases hb : b = x <;> simp [hb] <;> omega

theorem count_swapQ (h : ExpHeap) (i j : Int) (hi0 : 0 ≤ i)
    (hin : i < (h.arr.length : Int)) (hj0 : 0 ≤ j)
    (hjn : j < (h.arr.length : Int)) (x : String) :
    (h.swapQ i j).arr.count x = h.arr.count x := by
  have c1 := count_set_str h.arr i.toNat (by omega) (h.arr.getD j.toNat "") x
  have hl1 : (h.arr.set i.toNat (h.arr.getD j.toNat "")).length = h.arr.length := by
    simp
  have hgj : (h.arr.set i.toNat (h.arr.getD j.toNat "")).getD j.toNat "" =
      h.arr.getD j.toNat "" := by
    by_cases hij : i.toNat = j.toNat
    · rw [← hij, getD_set_self _ _ _ _ (by omega)]
    · rw [getD_set_ne _ _ _ _ _ hij]
  have c2 := count_set_str (h.arr.set i.toNat (h.arr.getD j.toNat "")) j.toNat
    (by omega) (h.arr.getD i.toNat "") x
  rw [hgj] at c2
  show ((h.arr.set i.toNat (h.arr.getD j.toNat "")).set j.toNat
    (h.arr.getD i.toNat "")).count x = _
  split_ifs at c1 c2 <;> omega

theorem heapUpLoop_count : ∀ (h : ExpHeap) (j : Int), 0 ≤ j →
    j < (h.arr.length : Int) → ∀ x,
    (heapUpLoop h j).arr.count x = h.arr.count x := by
  intro h j
  induction h, j using heapUpLoop.induct with
  | case1 h j hg =>
    intro hj0 hjn x
    rw [heapUpLoop, dif_pos hg]
  | case2 h j hg ih =>
    intro hj0 hjn x
    have hg' := hg
    push_neg at hg
    obtain ⟨hij, hlt⟩ := hg
    have hj1 : 1 ≤ j := by
      by_contra h0
      have hj00 : j = 0 := by omega
      apply hij
      rw [hj00]
      decide
    have htd : (j - 1).tdiv 2 = (j - 1) / 2 :=
      Int.tdiv_eq_ediv (by omega) (by norm_num)
    rw [heapUpLoop, dif_neg hg']
    have hi0 : (0:Int) ≤ (j - 1).tdiv 2 := by rw [htd]; omega
    have hilt : (j - 1).tdiv 2 < j := by rw [htd]; omega
    rw [ih hi0 (by
      rw [show (((h.swapQ ((j - 1).tdiv 2) j).arr.length : Nat) : Int) =
        (h.arr.length : Int) by rw [swapQ_arrLen]]
      omega) x]
    exact count_swapQ h _ j hi0 (by omega) hj0 hjn x

theorem heapDownLoop_count : ∀ (h : ExpHeap) (n i : Int),
    n ≤ (h.arr.length : Int) → ∀ x,
    (heapDownLoop h n i).1.arr.count x = h.arr.count x := by
  intro h n i
  induction h, n, i using heapDownLoop.induct with
  | case1 h n i hg =>
    intro hn x
    rw [heapDownLoop, dif_pos hg]
  | case2 h n i hg hcond =>
    intro hn x
    rw [heapDownLoop, dif_neg hg, if_pos hcond]
  | case3 h n i hg hcond ih =>
    intro hn x
    rw [heapDownLoop, dif_neg hg, if_neg hcond]
    have hgl : 2 * i + 1 < n := by omega
    have hi0 : (0:Int) ≤ i := by omega
    obtain ⟨hm1, hm2, hmn, hmpar⟩ := minChild_facts h n i hgl hi0
    rw [ih (by
      rw [show (((h.swapQ i (minChild h n i)).arr.length : Nat) : Int) =
        (h.arr.length : Int) by rw [swapQ_arrLen]]
      omega) x]
    exact count_swapQ h i _ hi0 (by omega) (by omega) (by omega) x

theorem heapDownLoop_getD_ge : ∀ (h : ExpHeap) (n i : Int),
    n ≤ (h.arr.length : Int) → ∀ (p : Nat), n ≤ (p : Int) →
    (heapDownLoop h n i).1.arr.getD p "" = h.arr.getD p "" := by
  intro h n i
  induction h, n, i using heapDownLoop.induct with
  | case1 h n i hg =>
    intro hn p hp
    rw [heapDownLoop, dif_pos hg]
  | case2 h n i hg hcond =>
    intro hn p hp
    rw [heapDownLoop, dif_neg hg, if_pos hcond]
  | case3 h n i hg hcond ih =>
    intro hn p hp
    rw [heapDownLoop, dif_neg hg, if_neg hcond]
    have hgl : 2 * i + 1 < n := by omega
    have hi0 : (0:Int) ≤ i := by omega
    obtain ⟨hm1, hm2, hmn, hmpar⟩ := minChild_facts h n i hgl hi0
    rw [ih (by
      rw [show (((h.swapQ i (minChild h n i)).arr.length : Nat) : Int) =
        (h.arr.length : Int) by rw [swapQ_arrLen]]
      omega) p hp]
    rw [swapQ_getD h i _ hi0 (by omega) (by omega) (by omega) p]
    rw [if_neg (by omega), if_neg (by omega)]

theorem timeAt_popQ (h : ExpHeap) (p : Int) (hp0 : 0 ≤ p)
    (hpn : p < (h.arr.length : Int) - 1) :
    (h.popQ).1.timeAt p = h.timeAt p := by
  rw [ExpHeap.timeAt, ExpHeap.timeAt]
  have harr : (h.popQ).1.arr.getD p.toNat "" = h.arr.getD p.toNat "" := by
    show (h.arr.take (h.arr.length - 1)).getD p.toNat "" = _
    exact getD_take _ _ _ (by omega)
  rw [harr]
  rw [ExpHeap.recOf, ExpHeap.recOf]
  exact recOf_time_congr _ _ (by
    show recsKT (setIdx h.recs (h.arr.getD (h.arr.length - 1) "") (-1)) = _
    rw [recsKT_setIdx]) _

theorem heapOrd_root_min (h : ExpHeap) (ho : h.heapOrd) : ∀ (pn : Nat) (p : Int),
    p.toNat = pn → 0 ≤ p → p < (h.arr.length : Int) →
    h.timeAt 0 ≤ h.timeAt p := by
  intro pn
  induction pn using Nat.strong_induction_on with
  | _ pn ih =>
    intro p hpn hp0 hplen
    by_cases hp : p = 0
    · rw [hp]
    · have hp1 : 1 ≤ p := by omega
      have hpar := ho p hp1 hplen
      refine le_trans (ih ((p - 1) / 2).toNat (by omega) ((p - 1) / 2) rfl
        (by omega) (by omega)) hpar

theorem mem_getD_ex (l : List String) (k : String) (hk : k ∈ l) :
    ∃ p : Nat, p < l.length ∧ l.getD p "" = k := by
  obtain ⟨p, hpl, hpk⟩ := List.mem_iff_getElem.mp hk
  refine ⟨p, hpl, ?_⟩
  rw [List.getD_eq_getElem?_getD, List.getElem?_eq_getElem hpl]
  exact hpk

theorem key_time_root_min (h : ExpHeap) (ho : h.heapOrd) (k : String)
    (hk : k ∈ h.arr) :
    (h.recOf (h.arr.getD 0 "")).unixExpiryTime ≤ (h.recOf k).unixExpiryTime := by
  obtain ⟨p, hpl, hpk⟩ := mem_getD_ex h.arr k hk
  have h0 : (h.recOf (h.arr.getD 0 "")).unixExpiryTime = h.timeAt 0 := rfl
  have hp : (h.recOf k).unixExpiryTime = h.timeAt (p : Int) := by
    rw [ExpHeap.timeAt]
    rw [show ((p : Int)).toNat = p by omega, hpk]
  rw [h0, hp]
  exact heapOrd_root_min h ho p (p : Int) (by omega) (by omega) (by omega)

theorem count_popQ (h2 : ExpHeap) (hl : 1 ≤ h2.arr.length) (x : String) :
    (h2.popQ).1.arr.count x +
      (if h2.arr.getD (h2.arr.length - 1) "" = x then 1 else 0) =
      h2.arr.count x := by
  show (h2.arr.take (h2.arr.length - 1)).count x + _ = _
  rw [← List.dropLast_eq_take]
  have hne : h2.arr ≠ [] := by
    intro hc
    rw [hc] at hl
    simp at hl
  have hlast : h2.arr.getLast hne = h2.arr.getD (h2.arr.length - 1) "" := by
    rw [List.getLast_eq_getElem]
    rw [List.getD_eq_getElem?_getD, List.getElem?_eq_getElem (by omega)]
    rfl
  conv_rhs => rw [← List.dropLast_append_getLast hne]
  rw [List.count_append, hlast]
  congr 1
  by_cases hx : h2.arr.getD (h2.arr.length - 1) "" = x <;>
    simp [hx, List.count_singleton]

theorem heapPop_spec (h : ExpHeap) (hw : HeapWF h) (ho : h.heapOrd)
    (hlen : 1 ≤ h.arr.length) :
    HeapWF (heapPop h).1 ∧ (heapPop h).1.heapOrd ∧
    (heapPop h).2 = h.arr.getD 0 "" ∧
    (heapPop h).1.arr.length = h.arr.length - 1 ∧
    (∀ x, (heapPop h).1.arr.count x +
      (if h.arr.getD 0 "" = x then 1 else 0) = h.arr.count x) := by
  have hn0 : (0:Int) ≤ (h.arr.length : Int) - 1 := by omega
  have hnl : (h.arr.length : Int) - 1 < (h.arr.length : Int) := by omega
  have hW1 : HeapWF (h.swapQ 0 ((h.arr.length : Int) - 1)) :=
    HeapWF_swapQ h 0 _ (by norm_num) (by omega) hn0 hnl hw
  have hlen1 : (h.swapQ 0 ((h.arr.length : Int) - 1)).arr.length =
      h.arr.length := swapQ_arrLen h 0 _
  have hnle : (h.arr.length : Int) - 1 ≤
      ((h.swapQ 0 ((h.arr.length : Int) - 1)).arr.length : Int) := by
    rw [hlen1]
    omega
  have hW2 : HeapWF (heapDownLoop (h.swapQ 0 ((h.arr.length : Int) - 1))
      ((h.arr.length : Int) - 1) 0).1 :=
    HeapWF_downLoop _ _ 0 hnle (by norm_num) hW1
  have hlen2 : (heapDownLoop (h.swapQ 0 ((h.arr.length : Int) - 1))
      ((h.arr.length : Int) - 1) 0).1.arr.length = h.arr.length := by
    rw [heapDownLoop_arrLen, hlen1]
  have hgetD2 : (heapDownLoop (h.swapQ 0 ((h.arr.length : Int) - 1))
      ((h.arr.length : Int) - 1) 0).1.arr.getD (h.arr.length - 1) "" =
      h.arr.getD 0 "" := by
    rw [heapDownLoop_getD_ge _ _ 0 hnle (h.arr.length - 1) (by omega)]
    rw [swapQ_getD h 0 _ (by norm_num) (by omega) hn0 hnl (h.arr.length - 1)]
    rw [if_pos (by omega)]
    rfl
  refine ⟨HeapWF_popQ _ hW2, ?_, ?_, ?_, ?_⟩
  · -- heap order of the result
    rw [heapOrd_def]
    intro p hp1 hpn
    have hlenp : ((heapPop h).1.arr.length : Int) =
        (h.arr.length : Int) - 1 := by
      show (((heapDownLoop (h.swapQ 0 ((h.arr.length : Int) - 1))
        ((h.arr.length : Int) - 1) 0).1.arr.take
          ((heapDownLoop (h.swapQ 0 ((h.arr.length : Int) - 1))
            ((h.arr.length : Int) - 1) 0).1.arr.length - 1)).length : Int) = _
      rw [List.length_take, hlen2]
      omega
    rw [hlenp] at hpn
    have hTpop : ∀ q : Int, 0 ≤ q → q < (h.arr.length : Int) - 1 →
        (heapPop h).1.timeAt q =
          (heapDownLoop (h.swapQ 0 ((h.arr.length : Int) - 1))
            ((h.arr.length : Int) - 1) 0).1.timeAt q := by
      intro q hq0 hqn
      refine timeAt_popQ _ q hq0 ?_
      rw [hlen2]
      omega
    rw [hTpop p (by omega) hpn, hTpop ((p - 1) / 2) (by omega) (by omega)]
    -- full order on the prefix of length n for the downed heap
    have hmain := heapDownLoop_main (h.swapQ 0 ((h.arr.length : Int) - 1))
      ((h.arr.length : Int) - 1) 0 hnle (by norm_num) (by omega) ?_ ?_
    · obtain ⟨c1, c2, c3, c4, c5⟩ := hmain
      by_cases hpi : p = (heapDownLoop (h.swapQ 0 ((h.arr.length : Int) - 1))
          ((h.arr.length : Int) - 1) 0).2
      · rw [hpi]
        refine c2 ?_
        omega
      · exact c1 p hp1 hpn hpi
    · -- pairs away from the root hold after the swap
      intro q hq1 hqn hqne hqpar
      have hT : ∀ x : Int, 0 ≤ x → x < (h.arr.length : Int) →
          (h.swapQ 0 ((h.arr.length : Int) - 1)).timeAt x =
            if x = 0 then h.timeAt ((h.arr.length : Int) - 1)
            else if x = (h.arr.length : Int) - 1 then h.timeAt 0
            else h.timeAt x :=
        fun x hx0 hxn =>
          timeAt_swapQ h 0 _ x (by norm_num) (by omega) hn0 hnl hx0 hxn
      rw [hT q (by omega) (by omega), hT ((q - 1) / 2) (by omega) (by omega)]
      rw [if_neg hqpar]
      rw [if_neg (show ¬ ((q - 1) / 2 = (h.arr.length : Int) - 1) by omega)]
      rw [if_neg hqne]
      rw [if_neg (show ¬ (q = (h.arr.length : Int) - 1) by omega)]
      exact ho q hq1 (by omega)
    · -- no bridge obligations at the root
      intro c hc1 hcn hcp h10
      exact absurd h10 (by norm_num)
  · -- the returned key is the old root
    show (heapDownLoop (h.swapQ 0 ((h.arr.length : Int) - 1))
      ((h.arr.length : Int) - 1) 0).1.arr.getD
        ((heapDownLoop (h.swapQ 0 ((h.arr.length : Int) - 1))
          ((h.arr.length : Int) - 1) 0).1.arr.length - 1) "" = _
    rw [hlen2]
    exact hgetD2
  · show ((heapDownLoop (h.swapQ 0 ((h.arr.length : Int) - 1))
      ((h.arr.length : Int) - 1) 0).1.arr.take
        ((heapDownLoop (h.swapQ 0 ((h.arr.length : Int) - 1))
          ((h.arr.length : Int) - 1) 0).1.arr.length - 1)).length =
      h.arr.length - 1
    rw [List.length_take, hlen2]
    omega
  · intro x
    have hc := count_popQ (heapDownLoop (h.swapQ 0 ((h.arr.length : Int) - 1))
      ((h.arr.length : Int) - 1) 0).1 (by rw [hlen2]; omega) x
    rw [hlen2, hgetD2] at hc
    rw [heapPop, hc]
    rw [heapDownLoop_count _ _ 0 hnle x]
    exact count_swapQ h 0 _ (by norm_num) (by omega) hn0 hnl x

theorem heapFix_neg_one (h : ExpHeap) : heapFix h (-1) = h := by
  rw [heapFix, heapDownLoop, dif_pos (Or.inr (by norm_num : (2:Int) * (-1) + 1 < 0))]
  rw [if_neg (show ¬ ((h, (-1:Int)).2 > -1) from by norm_num)]
  rw [heapUpLoop, dif_pos (Or.inl (by decide : ((-1:Int) - 1).tdiv 2 = -1))]

theorem timeAt_e1_ne (e : ExpHeap) (k : String) (r' : ItemExpiry) (p : Int)
    (hp0 : 0 ≤ p) (hpn : p < (e.arr.length : Int)) (hk : e.arr.getD p.toNat "" ≠ k) :
    ({ e with recs := aset e.recs k r' } : ExpHeap).timeAt p = e.timeAt p :=
  timeAt_aset_ne e k r' p hk

theorem setHeap_fix_spec (e : ExpHeap) (k : String) (T : Int) (r : ItemExpiry)
    (hw : HeapWF e) (ho : e.heapOrd) (hsome : alookup e.recs k = some r) :
    HeapWF (setHeap e k T) ∧ (setHeap e k T).heapOrd ∧
    (setHeap e k T).arr.length = e.arr.length ∧
    (∀ x, (setHeap e k T).arr.count x = e.arr.count x) := by
  have hinj := HeapWF_getD_inj e hw
  have unf : setHeap e k T =
      heapFix { e with recs := aset e.recs k { r with unixExpiryTime := T } } r.index := by
    simp only [setHeap, hsome]
  have hwf1 : HeapWF { e with recs := aset e.recs k { r with unixExpiryTime := T } } :=
    HeapWF_aset_retime e k r T hw hsome
  have hLl : ({ e with recs := aset e.recs k { r with unixExpiryTime := T } } : ExpHeap).arr.length = e.arr.length := rfl
  rw [unf]
  obtain ⟨w1, w2, w3⟩ := hw
  rcases w2 k r hsome with ⟨hm1, hm2⟩ | ⟨hv0, hvl, hvk⟩
  · -- the record is dangling (index -1, key not in the queue): Fix is a no-op
    have hfix : heapFix { e with recs := aset e.recs k { r with unixExpiryTime := T } } r.index = { e with recs := aset e.recs k { r with unixExpiryTime := T } } := by
      rw [hm1]
      exact heapFix_neg_one _
    rw [hfix]
    have hTe : ∀ p : Int, 0 ≤ p → p < (e.arr.length : Int) →
        ({ e with recs := aset e.recs k { r with unixExpiryTime := T } } : ExpHeap).timeAt p = e.timeAt p := by
      intro p hp0 hpn
      refine timeAt_e1_ne e k _ p hp0 hpn ?_
      intro hc
      exact hm2 (hc ▸ getD_mem e.arr p.toNat (by omega))
    refine ⟨hwf1, ?_, rfl, fun x => rfl⟩
    rw [heapOrd_def]
    intro p hp1 hpn
    have hpn' : p < (e.arr.length : Int) := hpn
    rw [hTe p (by omega) hpn', hTe ((p - 1) / 2) (by omega) (by omega)]
    exact ho p hp1 hpn'
  · -- the record is live at position r.index
    have hTe : ∀ p : Int, 0 ≤ p → p < (e.arr.length : Int) → p ≠ r.index →
        ({ e with recs := aset e.recs k { r with unixExpiryTime := T } } : ExpHeap).timeAt p = e.timeAt p := by
      intro p hp0 hpn hpne
      refine timeAt_e1_ne e k _ p hp0 hpn ?_
      intro hc
      have := hinj p.toNat r.index.toNat (by omega) hvl (by rw [hc, hvk])
      omega
    have hmain := heapDownLoop_main { e with recs := aset e.recs k { r with unixExpiryTime := T } }
      (e.arr.length : Int) r.index (by omega) hv0 (by omega) ?_ ?_
    · obtain ⟨c1, c2, c3, c4, c5⟩ := hmain
      have hlend : (heapDownLoop { e with recs := aset e.recs k { r with unixExpiryTime := T } } ((e.arr.length : Nat) : Int) r.index).1.arr.length = e.arr.length := by
        rw [heapDownLoop_arrLen]
      rw [heapFix]
      rw [show ((({ e with recs := aset e.recs k { r with unixExpiryTime := T } } : ExpHeap).arr.length : Nat) : Int) =
        ((e.arr.length : Nat) : Int) from rfl]
      by_cases hmoved : (heapDownLoop { e with recs := aset e.recs k { r with unixExpiryTime := T } } ((e.arr.length : Nat) : Int) r.index).2 > r.index
      · rw [if_pos hmoved]
        refine ⟨HeapWF_downLoop _ _ _ (by omega) hv0 hwf1, ?_, hlend, ?_⟩
        · rw [heapOrd_def]
          intro p hp1 hpn
          rw [hlend] at hpn
          by_cases hpi : p = (heapDownLoop { e with recs := aset e.recs k { r with unixExpiryTime := T } } ((e.arr.length : Nat) : Int) r.index).2
          · rw [hpi]
            refine c2 ?_
            omega
          · exact c1 p hp1 hpn hpi
        · intro x
          rw [heapDownLoop_count _ _ _ (by omega) x]
      · rw [if_neg hmoved]
        have heqi : (heapDownLoop { e with recs := aset e.recs k { r with unixExpiryTime := T } } ((e.arr.length : Nat) : Int) r.index).2 = r.index := by omega
        have heq1 : (heapDownLoop { e with recs := aset e.recs k { r with unixExpiryTime := T } } ((e.arr.length : Nat) : Int) r.index).1 = { e with recs := aset e.recs k { r with unixExpiryTime := T } } :=
          c3 heqi
        rw [heq1]
        refine ⟨HeapWF_upLoop _ _ hv0 (by omega) hwf1, ?_, ?_, ?_⟩
        · refine heapUpLoop_ord _ r.index hv0 (by omega) ?_ ?_
          · intro p hp1 hpn hpne
            have := c1 p hp1 (by omega) (by omega)
            rw [heq1] at this
            exact this
          · intro c hc1 hcn hcp hi1
            have hc2 := ho c hc1 hcn
            rw [hcp] at hc2
            have hc3 := ho r.index hi1 (by omega)
            have e1 : ({ e with recs := aset e.recs k { r with unixExpiryTime := T } } : ExpHeap).timeAt ((r.index - 1) / 2) = e.timeAt ((r.index - 1) / 2) :=
              hTe _ (by omega) (by omega) (by omega)
            have e2 : ({ e with recs := aset e.recs k { r with unixExpiryTime := T } } : ExpHeap).timeAt c = e.timeAt c :=
              hTe _ (by omega) (by omega) (by omega)
            rw [e1, e2]
            exact le_trans hc3 hc2
        · rw [heapUpLoop_arrLen]
        · intro x
          rw [heapUpLoop_count _ _ hv0 (by omega) x]
    · -- pairs not involving the retimed position still hold
      intro p hp1 hpn hpne hppar
      rw [hTe p (by omega) hpn hpne, hTe ((p - 1) / 2) (by omega) (by omega) hppar]
      exact ho p hp1 hpn
    · -- the grandparent bridge over the retimed position
      intro c hc1 hcn hcp hi1
      have hc2 := ho c hc1 hcn
      rw [hcp] at hc2
      have hc3 := ho r.index hi1 (by omega)
      rw [hTe ((r.index - 1) / 2) (by omega) (by omega) (by omega),
        hTe c (by omega) hcn (by omega)]
      exact le_trans hc3 hc2

theorem getD_append_lt (l : List String) (k : String) (p : Nat)
    (hp : p < l.length) : (l ++ [k]).getD p "" = l.getD p "" := by
  rw [List.getD_eq_getElem?_getD, List.getD_eq_getElem?_getD,
    List.getElem?_append_left hp]

theorem getD_append_len (l : List String) (k : String) :
    (l ++ [k]).getD l.length "" = k := by
  rw [List.getD_eq_getElem?_getD]
  rw [List.getElem?_append_right (le_refl _)]
  simp

theorem setHeap_push_spec (e : ExpHeap) (k : String) (T : Int)
    (hw : HeapWF e) (ho : e.heapOrd) (hnone : alookup e.recs k = none) :
    HeapWF (setHeap e k T) ∧ (setHeap e k T).heapOrd ∧
    (setHeap e k T).arr.length = e.arr.length + 1 ∧
    (∀ x, (setHeap e k T).arr.count x =
      e.arr.count x + (if k = x then 1 else 0)) := by
  have hknot : k ∉ e.arr := by
    intro hmem
    obtain ⟨p, hpl, hpk⟩ := mem_getD_ex e.arr k hmem
    obtain ⟨rp, hrp, _⟩ := hw.1 p hpl
    rw [hpk, hnone] at hrp
    exact absurd hrp (by simp)
  have unf : setHeap e k T =
      heapPush { e with recs := aset e.recs k ⟨k, T, 0⟩ } k := by
    simp only [setHeap, hnone]
  rw [unf, heapPush]
  have harr2 : (({ e with recs := aset e.recs k ⟨k, T, 0⟩ } : ExpHeap).pushQ k).arr = e.arr ++ [k] := rfl
  have hlook2 : ∀ x, alookup (({ e with recs := aset e.recs k ⟨k, T, 0⟩ } : ExpHeap).pushQ k).recs x =
      if x = k then some ⟨k, T, (e.arr.length : Int)⟩ else alookup e.recs x := by
    intro x
    show alookup (setIdx (aset e.recs k ⟨k, T, 0⟩) k (e.arr.length : Int)) x = _
    rw [alookup_setIdx, alookup_aset]
    by_cases hx : x = k
    · rw [if_pos hx, if_pos hx]
      simp only [Option.map_some']
      rw [if_pos hx]
    · rw [if_neg hx, if_neg hx]
      cases alookup e.recs x with
      | none => rfl
      | some rx =>
        simp only [Option.map_some']
        rw [if_neg hx]
  have hlen2 : (({ e with recs := aset e.recs k ⟨k, T, 0⟩ } : ExpHeap).pushQ k).arr.length = e.arr.length + 1 := by
    rw [harr2]
    simp
  have hwf2 : HeapWF (({ e with recs := aset e.recs k ⟨k, T, 0⟩ } : ExpHeap).pushQ k) := by
    refine ⟨?_, ?_, ?_⟩
    · intro p hp
      rw [hlen2] at hp
      rw [harr2]
      by_cases hpl : p < e.arr.length
      · rw [getD_append_lt _ _ _ hpl, hlook2]
        have hne : e.arr.getD p "" ≠ k := by
          intro hc
          exact hknot (hc ▸ getD_mem e.arr p hpl)
        rw [if_neg hne]
        exact hw.1 p hpl
      · have hpe : p = e.arr.length := by omega
        rw [hpe, getD_append_len, hlook2, if_pos rfl]
        exact ⟨_, rfl, rfl⟩
    · intro x rx hrx
      rw [hlook2] at hrx
      by_cases hx : x = k
      · rw [if_pos hx] at hrx
        cases hrx
        right
        refine ⟨?_, ?_, ?_⟩
        · show (0:Int) ≤ (e.arr.length : Int)
          omega
        · show ((e.arr.length : Int)).toNat < (({ e with recs := aset e.recs k ⟨k, T, 0⟩ } : ExpHeap).pushQ k).arr.length
          rw [hlen2]
          omega
        · show (({ e with recs := aset e.recs k ⟨k, T, 0⟩ } : ExpHeap).pushQ k).arr.getD ((e.arr.length : Int)).toNat "" = x
          rw [harr2, show ((e.arr.length : Int)).toNat = e.arr.length by omega]
          rw [getD_append_len]
          exact hx.symm
      · rw [if_neg hx] at hrx
        rcases hw.2.1 x rx hrx with ⟨hm1, hm2⟩ | ⟨hv0, hvl, hvk⟩
        · left
          refine ⟨hm1, ?_⟩
          intro hmem
          have hmem2 : x ∈ e.arr ++ [k] := harr2 ▸ hmem
          rcases List.mem_append.mp hmem2 with h1 | h1
          · exact hm2 h1
          · simp at h1
            exact hx h1
        · right
          refine ⟨hv0, ?_, ?_⟩
          · rw [hlen2]
            omega
          · rw [harr2, getD_append_lt _ _ _ hvl]
            exact hvk
    · intro x rx hrx
      rw [hlook2] at hrx
      by_cases hx : x = k
      · rw [if_pos hx] at hrx
        cases hrx
        exact hx.symm
      · rw [if_neg hx] at hrx
        exact hw.2.2 x rx hrx
  have hT2 : ∀ p : Int, 0 ≤ p → p < (e.arr.length : Int) →
      (({ e with recs := aset e.recs k ⟨k, T, 0⟩ } : ExpHeap).pushQ k).timeAt p = e.timeAt p := by
    intro p hp0 hpn
    rw [ExpHeap.timeAt, ExpHeap.timeAt, harr2]
    rw [getD_append_lt _ _ _ (by omega)]
    rw [ExpHeap.recOf, ExpHeap.recOf, hlook2]
    rw [if_neg (by
      intro hc
      exact hknot (hc ▸ getD_mem e.arr p.toNat (by omega)))]
  have hlenC : (((({ e with recs := aset e.recs k ⟨k, T, 0⟩ } : ExpHeap).pushQ k).arr.length : Nat) : Int) = (e.arr.length : Int) + 1 := by
    rw [hlen2]
    push_cast
    ring
  rw [show (((({ e with recs := aset e.recs k ⟨k, T, 0⟩ } : ExpHeap).pushQ k).arr.length : Nat) : Int) - 1 = (e.arr.length : Int) by
      rw [hlenC]; ring]
  refine ⟨HeapWF_upLoop _ _ (by omega) (by rw [hlenC]; omega) hwf2, ?_, ?_, ?_⟩
  · refine heapUpLoop_ord _ (e.arr.length : Int) (by omega)
      (by rw [hlenC]; omega) ?_ ?_
    · intro p hp1 hpn hpne
      rw [hlenC] at hpn
      rw [hT2 p (by omega) (by omega), hT2 ((p - 1) / 2) (by omega) (by omega)]
      exact ho p hp1 (by omega)
    · intro c hc1 hcn hcp hj1
      rw [hlenC] at hcn
      omega
  · rw [heapUpLoop_arrLen, hlen2]
  · intro x
    rw [heapUpLoop_count _ _ (by omega) (by rw [hlenC]; omega) x]
    rw [harr2, List.count_append]
    congr 1
    by_cases hx : k = x <;> simp [hx, List.count_singleton]

theorem HeapWF_emptyHeap : HeapWF emptyHeap := by
  refine ⟨?_, ?_, ?_⟩
  · intro p hp
    simp [emptyHeap] at hp
  · intro k r hr
    simp [emptyHeap, alookup] at hr
  · intro k r hr
    simp [emptyHeap, alookup] at hr

theorem emptyHeap_ord : emptyHeap.heapOrd := by
  intro p hp1 hpn
  simp [emptyHeap] at hpn
  omega

theorem applyOp_spec (h : ExpHeap) (op : HeapOp) (hw : HeapWF h) (ho : h.heapOrd) :
    HeapWF (applyOp h op) ∧ (applyOp h op).heapOrd := by
  cases op with
  | push k t =>
    cases hl : alookup h.recs k with
    | some r =>
      simp only [applyOp, hl]
      exact ⟨hw, ho⟩
    | none =>
      have he : applyOp h (.push k t) = setHeap h k t := by
        simp only [applyOp, setHeap, hl]
      rw [he]
      obtain ⟨a, b, _, _⟩ := setHeap_push_spec h k t hw ho hl
      exact ⟨a, b⟩
  | fix k t =>
    cases hl : alookup h.recs k with
    | none =>
      simp only [applyOp, hl]
      exact ⟨hw, ho⟩
    | some r =>
      have he : applyOp h (.fix k t) = setHeap h k t := by
        simp only [applyOp, setHeap, hl]
      rw [he]
      obtain ⟨a, b, _, _⟩ := setHeap_fix_spec h k t r hw ho hl
      exact ⟨a, b⟩
  | popMin =>
    by_cases hlen : 0 < h.arr.length
    · have he : applyOp h .popMin = (heapPop h).1 := by
        simp only [applyOp, if_pos hlen]
      rw [he]
      obtain ⟨a, b, _⟩ := heapPop_spec h hw ho (by omega)
      exact ⟨a, b⟩
    · simp only [applyOp, if_neg hlen]
      exact ⟨hw, ho⟩

theorem foldl_applyOp_spec (ops : List HeapOp) :
    ∀ h : ExpHeap, HeapWF h → h.heapOrd →
      HeapWF (ops.foldl applyOp h) ∧ (ops.foldl applyOp h).heapOrd := by
  induction ops with
  | nil =>
    intro h hw ho
    exact ⟨hw, ho⟩
  | cons op ops ih =>
    intro h hw ho
    obtain ⟨a, b⟩ := applyOp_spec h op hw ho
    exact ih _ a b

/-- C5: starting from the empty expiration queue, after any sequence of
Push (fresh key), Fix (retime existing record at its stored index) and
PopMin operations — exactly the calls `Set` and `clean` issue — the
min-heap order invariant holds: every non-root slot's expiry timestamp is
`≥` its parent's (`heapOrd`, i.e. `timeAt ((p-1)/2) ≤ timeAt p` for all
`1 ≤ p < len`). -/
theorem C5_heap_order_after_any_ops (ops : List HeapOp) :
    (ops.foldl applyOp emptyHeap).heapOrd :=
  (foldl_applyOp_spec ops emptyHeap HeapWF_emptyHeap emptyHeap_ord).2

theorem HeapWF_nodup (h : ExpHeap) (hw : HeapWF h) : h.arr.Nodup := by
  rw [List.nodup_iff_injective_get]
  intro i j hij
  have hi : h.arr.getD i.1 "" = h.arr.get i := by
    rw [List.getD_eq_getElem?_getD, List.getElem?_eq_getElem i.2]
    rfl
  have hj : h.arr.getD j.1 "" = h.arr.get j := by
    rw [List.getD_eq_getElem?_getD, List.getElem?_eq_getElem j.2]
    rfl
  have := HeapWF_getD_inj h hw i.1 j.1 i.2 j.2 (by rw [hi, hj, hij])
  exact Fin.ext this

theorem HeapWF_count_one (h : ExpHeap) (hw : HeapWF h) (k : String)
    (hk : k ∈ h.arr) : h.arr.count k = 1 :=
  List.count_eq_one_of_mem (HeapWF_nodup h hw) hk

theorem count_eq_zero_of_none (e : ExpHeap) (k : String) (hw : HeapWF e)
    (hnone : alookup e.recs k = none) : e.arr.count k = 0 := by
  rw [List.count_eq_zero]
  intro hmem
  obtain ⟨p, hpl, hpk⟩ := mem_getD_ex e.arr k hmem
  obtain ⟨rp, hrp, _⟩ := hw.1 p hpl
  rw [hpk, hnone] at hrp
  exact absurd hrp (by simp)

theorem setHeap_count_spec (e : ExpHeap) (k : String) (T : Int)
    (hw : HeapWF e) (ho : e.heapOrd)
    (hst : (alookup e.recs k).isSome → k ∈ e.arr) :
    HeapWF (setHeap e k T) ∧ (setHeap e k T).heapOrd ∧
    (setHeap e k T).arr.count k = 1 ∧
    (∀ x, x ≠ k → (setHeap e k T).arr.count x = e.arr.count x) := by
  cases hl : alookup e.recs k with
  | none =>
    obtain ⟨w, o, _, cnt⟩ := setHeap_push_spec e k T hw ho hl
    refine ⟨w, o, ?_, ?_⟩
    · rw [cnt k, if_pos rfl, count_eq_zero_of_none e k hw hl]
    · intro x hx
      rw [cnt x, if_neg (fun hc => hx hc.symm)]
      omega
  | some r =>
    have hk : k ∈ e.arr := hst (by rw [hl]; rfl)
    obtain ⟨w, o, _, cnt⟩ := setHeap_fix_spec e k T r hw ho hl
    refine ⟨w, o, ?_, fun x _ => cnt x⟩
    rw [cnt k, HeapWF_count_one e hw k hk]

theorem alookup_some_mem_fst (m : List (String × β)) (k : String) (v : β)
    (hl : alookup m k = some v) : k ∈ m.map Prod.fst := by
  induction m with
  | nil => exact absurd hl (by simp [alookup])
  | cons p rest ih =>
    rw [alookup_cons] at hl
    by_cases hk : k = p.1
    · simp [hk]
    · rw [if_neg hk] at hl
      simp [ih hl]

theorem mem_fst_aset (m : List (String × β)) (k : String) (v : β) (x : String) :
    x ∈ (aset m k v).map Prod.fst ↔ x ∈ m.map Prod.fst ∨ x = k := by
  induction m with
  | nil => simp [aset]
  | cons p rest ih =>
    rw [aset]
    by_cases hk : k = p.1
    · rw [if_pos hk]
      subst hk
      simp only [List.map_cons, List.mem_cons]
      tauto
    · rw [if_neg hk]
      simp only [List.map_cons, List.mem_cons, ih]
      tauto

theorem fst_aset_nodup (m : List (String × β)) (k : String) (v : β)
    (hnd : (m.map Prod.fst).Nodup) : ((aset m k v).map Prod.fst).Nodup := by
  induction m with
  | nil => simp [aset]
  | cons p rest ih =>
    rw [aset]
    simp only [List.map_cons, List.nodup_cons] at hnd
    by_cases hk : k = p.1
    · rw [if_pos hk]
      subst hk
      simp only [List.map_cons, List.nodup_cons]
      exact hnd
    · rw [if_neg hk]
      simp only [List.map_cons, List.nodup_cons, mem_fst_aset]
      refine ⟨?_, ih hnd.2⟩
      intro hc
      rcases hc with hc | hc
      · exact hnd.1 hc
      · exact hk hc.symm

theorem count_fst_aset_one (m : List (String × β)) (k : String) (v : β)
    (hnd : (m.map Prod.fst).Nodup) :
    ((aset m k v).map Prod.fst).count k = 1 :=
  List.count_eq_one_of_mem (fst_aset_nodup m k v hnd)
    (alookup_some_mem_fst _ k v (by rw [alookup_aset, if_pos rfl]))

/-- C2: on a well-formed cache (heap invariants hold; the item map has
unique keys; the key's record, if any, is actually in the queue), calling
`Set(k, v1, L1)` at `t1` and then `Set(k, v2, L2)` at `t2` succeeds both
times and leaves exactly one entry for `k` in the item store and exactly
one slot for `k` in the expiration queue, the stored item being `v2` cached
at `t2` with expiry `t2 + L2`, and the queue record retimed to `t2 + L2`. -/
theorem C2_double_set_single_entry (c : MyStateCache) (st1 st2 : MyState)
    (L1 L2 t1 t2 : Int) (m : List (String × cachedItem))
    (hid : st2.Id = st1.Id) (hm : c.items = some m)
    (hnd : (m.map Prod.fst).Nodup)
    (hw : HeapWF c.exp) (ho : c.exp.heapOrd)
    (hst : (alookup c.exp.recs st1.Id).isSome → st1.Id ∈ c.exp.arr) :
    ∃ c1 c2 : MyStateCache,
      c.Set (some st1) L1 t1 = .ok c1 ∧ c1.Set (some st2) L2 t2 = .ok c2 ∧
      ∃ m2, c2.items = some m2 ∧
        (m2.map Prod.fst).count st1.Id = 1 ∧
        alookup m2 st1.Id = some ⟨st2, t2, t2 + L2⟩ ∧
        c2.exp.arr.count st1.Id = 1 ∧
        recsKT c2.exp.recs st1.Id = some (st1.Id, t2 + L2) := by
  obtain ⟨w1, o1, cnt1, _⟩ := setHeap_count_spec c.exp st1.Id (t1 + L1) hw ho hst
  have hset1 : c.Set (some st1) L1 t1 =
      .ok { c with items := some (aset m st1.Id ⟨st1, t1, t1 + L1⟩)
                   exp := setHeap c.exp st1.Id (t1 + L1) } := by
    rw [MyStateCache.Set, hm]
  set c1 : MyStateCache :=
    { c with items := some (aset m st1.Id ⟨st1, t1, t1 + L1⟩)
             exp := setHeap c.exp st1.Id (t1 + L1) } with hc1
  have hst2 : (alookup c1.exp.recs st1.Id).isSome → st1.Id ∈ c1.exp.arr := by
    intro _
    have : 0 < c1.exp.arr.count st1.Id := by
      show 0 < (setHeap c.exp st1.Id (t1 + L1)).arr.count st1.Id
      omega
    exact List.count_pos_iff_mem.mp this
  obtain ⟨w2, o2, cnt2, _⟩ :=
    setHeap_count_spec c1.exp st1.Id (t2 + L2) w1 o1 hst2
  have hset2 : c1.Set (some st2) L2 t2 =
      .ok { c1 with
              items := some (aset (aset m st1.Id ⟨st1, t1, t1 + L1⟩) st1.Id
                ⟨st2, t2, t2 + L2⟩)
              exp := setHeap c1.exp st1.Id (t2 + L2) } := by
    rw [MyStateCache.Set]
    show (match c1.items with
      | none => SetResult.panicked
      | some m' => .ok { c1 with
          items := some (aset m' st2.Id ⟨st2, t2, t2 + L2⟩)
          exp := setHeap c1.exp st2.Id (t2 + L2) }) = _
    rw [hid]
  refine ⟨c1, _, hset1, hset2, _, rfl, ?_, ?_, ?_, ?_⟩
  · exact count_fst_aset_one _ st1.Id _ (fst_aset_nodup m st1.Id _ hnd)
  · rw [alookup_aset, if_pos rfl]
  · show (setHeap c1.exp st1.Id (t2 + L2)).arr.count st1.Id = 1
    exact cnt2
  · show recsKT (setHeap c1.exp st1.Id (t2 + L2)).recs st1.Id = _
    exact setHeap_recsKT_self c1.exp st1.Id (t2 + L2)
      (setHeap_keysOK c.exp st1.Id (t1 + L1) hw.2.2)

theorem C2_witness :
    ((⟨"a", [1]⟩ : MyState).Id = (⟨"a", []⟩ : MyState).Id) ∧
    (newMyStateCache.items = some ([] : List (String × cachedItem))) ∧
    (([] : List (String × cachedItem)).map Prod.fst).Nodup ∧
    HeapWF newMyStateCache.exp ∧ newMyStateCache.exp.heapOrd ∧
    ((alookup newMyStateCache.exp.recs (⟨"a", []⟩ : MyState).Id).isSome →
      (⟨"a", []⟩ : MyState).Id ∈ newMyStateCache.exp.arr) ∧
    (∃ c1 c2 : MyStateCache,
      newMyStateCache.Set (some ⟨"a", []⟩) 5 0 = .ok c1 ∧
      c1.Set (some ⟨"a", [1]⟩) 100 3 = .ok c2 ∧
      ∃ m2, c2.items = some m2 ∧
        (m2.map Prod.fst).count (⟨"a", []⟩ : MyState).Id = 1 ∧
        alookup m2 (⟨"a", []⟩ : MyState).Id = some ⟨⟨"a", [1]⟩, 3, 3 + 100⟩ ∧
        c2.exp.arr.count (⟨"a", []⟩ : MyState).Id = 1 ∧
        recsKT c2.exp.recs (⟨"a", []⟩ : MyState).Id =
          some ((⟨"a", []⟩ : MyState).Id, 3 + 100)) :=
  ⟨rfl, rfl, by simp, HeapWF_emptyHeap, emptyHeap_ord,
    fun h => absurd h (by decide),
    C2_double_set_single_entry newMyStateCache ⟨"a", []⟩ ⟨"a", [1]⟩ 5 100 0 3 []
      rfl rfl (by simp) HeapWF_emptyHeap emptyHeap_ord
      (fun h => absurd h (by decide))⟩

theorem heapPop_mem (h : ExpHeap) (hw : HeapWF h) (ho : h.heapOrd)
    (hlen : 1 ≤ h.arr.length) (k : String) :
    k ∈ (heapPop h).1.arr ↔ (k ∈ h.arr ∧ k ≠ h.arr.getD 0 "") := by
  obtain ⟨_, _, _, _, cnt⟩ := heapPop_spec h hw ho hlen
  have hc := cnt k
  constructor
  · intro hm
    have h1 : 0 < (heapPop h).1.arr.count k := List.count_pos_iff.mpr hm
    have h2 : 0 < h.arr.count k := by
      by_cases hr : h.arr.getD 0 "" = k
      · rw [if_pos hr] at hc
        omega
      · rw [if_neg hr] at hc
        omega
    refine ⟨List.count_pos_iff.mp h2, ?_⟩
    intro hk
    have hone : h.arr.count k = 1 :=
      HeapWF_count_one h hw k (List.count_pos_iff.mp h2)
    rw [if_pos hk.symm] at hc
    omega
  · rintro ⟨hm, hk⟩
    have h2 : 0 < h.arr.count k := List.count_pos_iff.mpr hm
    rw [if_neg (fun hc' => hk hc'.symm)] at hc
    exact List.count_pos_iff.mp (by omega)

theorem recOf_time_popQ_mem (e : ExpHeap) (hw : HeapWF e) (k : String)
    (hk : k ∈ e.arr) :
    ((heapPop e).1.recOf k).unixExpiryTime = (e.recOf k).unixExpiryTime := by
  obtain ⟨p, hpl, hpk⟩ := mem_getD_ex e.arr k hk
  obtain ⟨r, hr, _⟩ := hw.1 p hpl
  rw [hpk] at hr
  have hkT : recsKT e.recs k = some (k, r.unixExpiryTime) := by
    rw [recsKT, hr]
    simp [hw.2.2 k r hr]
  have hkT2 : recsKT (heapPop e).1.recs k = some (k, r.unixExpiryTime) := by
    rw [congrFun (heapPop_recsKT e) k]
    exact hkT
  rw [recOf_time_of_recsKT _ k k _ hkT2, recOf_time_of_recsKT e k k _ hkT]

theorem lookupItems_map_adel (items : Option (List (String × cachedItem)))
    (k0 k : String) :
    lookupItems (items.map fun m => adel m k0) k =
      if k = k0 then none else lookupItems items k := by
  cases items with
  | none =>
    by_cases hk : k = k0 <;> simp [lookupItems, hk]
  | some m =>
    simp only [Option.map_some', lookupItems]
    exact alookup_adel m k0 k

theorem cleanLoop_spec (fuel : Nat) :
    ∀ (e : ExpHeap) (items : Option (List (String × cachedItem))) (now : Int),
      HeapWF e → e.heapOrd → e.arr.length ≤ fuel →
      HeapWF (cleanLoop fuel e items now).1 ∧
      (cleanLoop fuel e items now).1.heapOrd ∧
      (∀ k, k ∈ (cleanLoop fuel e items now).1.arr ↔
          (k ∈ e.arr ∧ now < (e.recOf k).unixExpiryTime)) ∧
      (∀ k, lookupItems (cleanLoop fuel e items now).2 k =
          if k ∈ e.arr ∧ (e.recOf k).unixExpiryTime ≤ now then none
          else lookupItems items k) ∧
      ((cleanLoop fuel e items now).1.arr.length = 0 ∨
          now < (cleanLoop fuel e items now).1.timeAt 0) := by
  induction fuel with
  | zero =>
    intro e items now hw ho hfuel
    have hlen : e.arr.length = 0 := by omega
    have harr : e.arr = [] := List.eq_nil_of_length_eq_zero hlen
    refine ⟨hw, ho, ?_, ?_, Or.inl hlen⟩
    · intro k
      show k ∈ e.arr ↔ _
      rw [harr]
      simp
    · intro k
      show lookupItems items k = _
      rw [if_neg ?_]
      rintro ⟨hm, _⟩
      rw [harr] at hm
      exact absurd hm (by simp)
  | succ fuel ih =>
    intro e items now hw ho hfuel
    rw [cleanLoop]
    by_cases hlen : e.arr.length = 0
    · rw [if_pos hlen]
      have harr : e.arr = [] := List.eq_nil_of_length_eq_zero hlen
      refine ⟨hw, ho, ?_, ?_, Or.inl hlen⟩
      · intro k
        show k ∈ e.arr ↔ _
        rw [harr]
        simp
      · intro k
        show lookupItems items k = _
        rw [if_neg ?_]
        rintro ⟨hm, _⟩
        rw [harr] at hm
        exact absurd hm (by simp)
    · rw [if_neg hlen]
      by_cases hguard : (e.recOf (e.arr.getD 0 "")).unixExpiryTime > now
      · rw [if_pos hguard]
        have hroot : ∀ k, k ∈ e.arr → now < (e.recOf k).unixExpiryTime := by
          intro k hk
          have := key_time_root_min e ho k hk
          omega
        refine ⟨hw, ho, ?_, ?_, Or.inr hguard⟩
        · intro k
          show k ∈ e.arr ↔ _
          exact ⟨fun hm => ⟨hm, hroot k hm⟩, fun hm => hm.1⟩
        · intro k
          show lookupItems items k = _
          rw [if_neg ?_]
          rintro ⟨hm, htime⟩
          have := hroot k hm
          omega
      · rw [if_neg hguard]
        push_neg at hguard
        have hkey : (e.recOf (e.arr.getD 0 "")).itemKey = e.arr.getD 0 "" :=
          recOf_itemKey e _ hw.2.2
        obtain ⟨pw, pord, _, plen, _⟩ := heapPop_spec e hw ho (by omega)
        obtain ⟨W, O, M, I, S⟩ :=
          ih (heapPop e).1
            (items.map fun m => adel m (e.recOf (e.arr.getD 0 "")).itemKey) now
            pw pord (by rw [plen]; omega)
        have hr0mem : e.arr.getD 0 "" ∈ e.arr := getD_mem e.arr 0 (by omega)
    
        refine ⟨W, O, ?_, ?_, S⟩
        · intro k
          rw [M k]
          by_cases hk0 : k = e.arr.getD 0 ""
          · constructor
            · rintro ⟨hm', _⟩
              rw [heapPop_mem e hw ho (by omega) k] at hm'
              exact absurd hk0 hm'.2
            · rintro ⟨_, ht⟩
              exact absurd ht (by rw [hk0]; omega)
          · constructor
            · rintro ⟨hm', ht'⟩
              rw [heapPop_mem e hw ho (by omega) k] at hm'
              rw [recOf_time_popQ_mem e hw k hm'.1] at ht'
              exact ⟨hm'.1, ht'⟩
            · rintro ⟨hm, ht⟩
              refine ⟨?_, ?_⟩
              · rw [heapPop_mem e hw ho (by omega) k]
                exact ⟨hm, hk0⟩
              · rw [recOf_time_popQ_mem e hw k hm]
                exact ht
        · intro k
          rw [I k, hkey, lookupItems_map_adel]
          by_cases hk0 : k = e.arr.getD 0 ""
          · have hcondR : k ∈ e.arr ∧ (e.recOf k).unixExpiryTime ≤ now := by
              refine ⟨?_, ?_⟩
              · rw [hk0]
                exact hr0mem
              · rw [hk0]
                exact hguard
            have hcondL : ¬ (k ∈ (heapPop e).1.arr ∧
                ((heapPop e).1.recOf k).unixExpiryTime ≤ now) := by
              rintro ⟨hm', _⟩
              rw [heapPop_mem e hw ho (by omega) k] at hm'
              exact hm'.2 hk0
            rw [if_neg hcondL, if_pos hk0, if_pos hcondR]
          · by_cases hm : k ∈ e.arr
            · have hteq := recOf_time_popQ_mem e hw k hm
              by_cases htime : (e.recOf k).unixExpiryTime ≤ now
              · have hcondL : k ∈ (heapPop e).1.arr ∧
                    ((heapPop e).1.recOf k).unixExpiryTime ≤ now := by
                  refine ⟨?_, ?_⟩
                  · rw [heapPop_mem e hw ho (by omega) k]
                    exact ⟨hm, hk0⟩
                  · rw [hteq]
                    exact htime
                rw [if_pos hcondL, if_pos ⟨hm, htime⟩]
              · have hcondL : ¬ (k ∈ (heapPop e).1.arr ∧
                    ((heapPop e).1.recOf k).unixExpiryTime ≤ now) := by
                  rintro ⟨_, ht'⟩
                  rw [hteq] at ht'
                  exact htime ht'
                rw [if_neg hcondL, if_neg hk0,
                  if_neg (fun hc => htime hc.2)]
            · have hcondL : ¬ (k ∈ (heapPop e).1.arr ∧
                  ((heapPop e).1.recOf k).unixExpiryTime ≤ now) := by
                rintro ⟨hm', _⟩
                rw [heapPop_mem e hw ho (by omega) k] at hm'
                exact hm hm'.1
              rw [if_neg hcondL, if_neg hk0,
                if_neg (fun hc => hm hc.1)]

theorem clean_stopped (c : MyStateCache) (now : Int)
    (hstop : c.exp.arr.length = 0 ∨ now < c.exp.timeAt 0) :
    c.clean now = c := by
  rw [MyStateCache.clean]
  have h1 : cleanLoop c.exp.arr.length c.exp c.items now = (c.exp, c.items) := by
    rcases hstop with h | h
    · rw [h]
      rfl
    · cases hlen : c.exp.arr.length with
      | zero => rfl
      | succ m =>
        rw [cleanLoop, if_neg (by omega)]
        rw [if_pos ?_]
        exact h
  rw [h1]

/-- C4: on a well-formed cache (heap invariants hold and every stored item's
key is in the queue with the matching expiry time), a sweep at `now` never
removes an item whose expiry is strictly after `now`; it removes every item
whose expiry is at or before `now`; the queue it leaves holds exactly the
keys whose expiry is in the future (so it stopped at the first future-dated
minimum, or emptied the queue); and a second sweep at the same `now` with no
intervening `Set` is a no-op. -/
theorem C4_sweep_exact_and_idempotent (c : MyStateCache) (now : Int)
    (hw : HeapWF c.exp) (ho : c.exp.heapOrd)
    (hlink : ∀ k it, lookupItems c.items k = some it →
      (c.exp.recOf k).unixExpiryTime = it.expiresAt ∧ k ∈ c.exp.arr) :
    (∀ k it, lookupItems c.items k = some it → now < it.expiresAt →
        lookupItems (c.clean now).items k = some it) ∧
    (∀ k it, lookupItems c.items k = some it → it.expiresAt ≤ now →
        lookupItems (c.clean now).items k = none) ∧
    (∀ k, k ∈ (c.clean now).exp.arr ↔
        (k ∈ c.exp.arr ∧ now < (c.exp.recOf k).unixExpiryTime)) ∧
    (c.clean now).clean now = c.clean now := by
  obtain ⟨W, O, M, I, S⟩ :=
    cleanLoop_spec c.exp.arr.length c.exp c.items now hw ho le_rfl
  refine ⟨?_, ?_, ?_, ?_⟩
  · intro k it hit hlive
    show lookupItems (cleanLoop c.exp.arr.length c.exp c.items now).2 k = some it
    rw [I k, if_neg ?_]
    · exact hit
    · rintro ⟨_, htime⟩
      have := (hlink k it hit).1
      omega
  · intro k it hit hexp
    show lookupItems (cleanLoop c.exp.arr.length c.exp c.items now).2 k = none
    rw [I k, if_pos ⟨(hlink k it hit).2, by rw [(hlink k it hit).1]; exact hexp⟩]
  · intro k
    exact M k
  · exact clean_stopped (c.clean now) now S

theorem HeapWF_cacheA10 : HeapWF cacheA10.exp := by
  refine ⟨?_, ?_, ?_⟩
  · intro p hp
    have hl1 : cacheA10.exp.arr.length = 1 := rfl
    have hp0 : p = 0 := by omega
    subst hp0
    exact ⟨⟨"a", 10, 0⟩, rfl, rfl⟩
  · intro k r hr
    have hr2 : (if k = "a" then some (⟨"a", 10, 0⟩ : ItemExpiry) else none) =
        some r := hr
    by_cases hk : k = "a"
    · rw [if_pos hk] at hr2
      cases hr2
      right
      refine ⟨by decide, by decide, ?_⟩
      rw [hk]
      rfl
    · rw [if_neg hk] at hr2
      exact absurd hr2 (by simp)
  · intro k r hr
    have hr2 : (if k = "a" then some (⟨"a", 10, 0⟩ : ItemExpiry) else none) =
        some r := hr
    by_cases hk : k = "a"
    · rw [if_pos hk] at hr2
      cases hr2
      exact hk.symm
    · rw [if_neg hk] at hr2
      exact absurd hr2 (by simp)

theorem ord_cacheA10 : cacheA10.exp.heapOrd := by
  intro p h1 h2
  have hl : ((cacheA10.exp.arr.length : Nat) : Int) = 1 := rfl
  rw [hl] at h2
  omega

theorem hlink_cacheA10 : ∀ k it, lookupItems cacheA10.items k = some it →
    (cacheA10.exp.recOf k).unixExpiryTime = it.expiresAt ∧
    k ∈ cacheA10.exp.arr := by
  intro k it hit
  have hit2 : (if k = "a" then some (⟨⟨"a", [1]⟩, 0, 10⟩ : cachedItem)
      else none) = some it := hit
  by_cases hk : k = "a"
  · rw [if_pos hk] at hit2
    cases hit2
    refine ⟨?_, ?_⟩
    · rw [hk]
      rfl
    · rw [hk]
      exact List.mem_singleton.mpr rfl
  · rw [if_neg hk] at hit2
    exact absurd hit2 (by simp)

theorem C4_witness :
    HeapWF cacheA10.exp ∧ cacheA10.exp.heapOrd ∧
    (∀ k it, lookupItems cacheA10.items k = some it →
      (cacheA10.exp.recOf k).unixExpiryTime = it.expiresAt ∧
      k ∈ cacheA10.exp.arr) ∧
    ((∀ k it, lookupItems cacheA10.items k = some it → (10:Int) < it.expiresAt →
        lookupItems (cacheA10.clean 10).items k = some it) ∧
      (∀ k it, lookupItems cacheA10.items k = some it → it.expiresAt ≤ (10:Int) →
        lookupItems (cacheA10.clean 10).items k = none) ∧
      (∀ k, k ∈ (cacheA10.clean 10).exp.arr ↔
        (k ∈ cacheA10.exp.arr ∧ (10:Int) < (cacheA10.exp.recOf k).unixExpiryTime)) ∧
      (cacheA10.clean 10).clean 10 = cacheA10.clean 10) :=
  ⟨HeapWF_cacheA10, ord_cacheA10, hlink_cacheA10,
    C4_sweep_exact_and_idempotent cacheA10 10 HeapWF_cacheA10 ord_cacheA10
      hlink_cacheA10⟩
